import Mathlib

/-!
Verification development for the MiniGo compiler (Compilador-Go).

Shallow embedding of the pipeline's data model and operations:
`mg_ast.py` (AST), `mg_lexer.py` (the integer-literal rule `t_NUMBER`),
`semant.py` (symbol table and semantic analyzer) and `codegen.py`
(LLVM-IR code generator built on llvmlite).  Stateful Python code is
embedded as explicit state passing; `raise` becomes `Except.error`.
-/

namespace MiniGo

/-! ## AST (`mg_ast.py`)

`Literal` in `mg_ast.py` stores `value` (a Python int, str or bool) and a
`type_tag` string; the parser (`mg_parser.py`, `p_expression_number`,
`p_expression_string`, `p_expression_true/false`) only ever constructs the
matching pairs (int value with tag 'int', etc.), so here the value is a
tagged union and the tag is derived from it. -/

inductive LitVal where
  | int (n : Int)
  | bool (b : Bool)
  | str (s : String)
deriving DecidableEq, Repr

/-- The `type_tag` field of `Literal`: 'int', 'bool' or 'string'. -/
def LitVal.type_tag : LitVal → String
  | .int _ => "int"
  | .bool _ => "bool"
  | .str _ => "string"

/-- The AST node classes of `mg_ast.py`, as one closed variant type (the
Python visitors dispatch on the runtime class name). -/
inductive Node where
  | Program (func_main : Node)
  | Function (name : String) (body : Node)
  | Block (statements : List Node)
  | VarDecl (name : String) (type_name : String) (expr : Option Node)
  | Assign (name : String) (expr : Node)
  | BinOp (left : Node) (op : String) (right : Node)
  | UnaryOp (op : String) (expr : Node)
  | IfStmt (cond : Node) (then_body : Node) (else_body : Option Node)
  | ForStmt (cond : Node) (body : Node)
  | Identifier (name : String)
  | Literal (value : LitVal)
  | Call (func_name : String) (args : List Node)

/-! ## Symbol table (`semant.py`, class `SymbolTable`)

`self.scopes` is a Python list of dicts; `scopes[-1]` is the innermost
scope, `lookup` walks `reversed(self.scopes)`.  Here the innermost scope
is the HEAD of the list (so Python's append/peek-last/iterate-reversed
become cons/head/iterate).  A scope dict is an association list; `declare`
refuses duplicates in a scope, so keys stay unique and `List.lookup`
matches dict lookup. -/

structure SymbolTable where
  scopes : List (List (String × String))
deriving DecidableEq, Repr

namespace SymbolTable

/-- `SymbolTable.__init__`: `self.scopes = [{}]`. -/
def init : SymbolTable := ⟨[[]]⟩

/-- `declare`: returns `False` (and leaves the table unchanged) if the name
is already in the current (innermost) scope, else records it there.
The `[]` case corresponds to `self.scopes[-1]` raising on an empty list,
which is unreachable (the table always keeps at least one scope). -/
def declare (st : SymbolTable) (name type_name : String) : SymbolTable × Bool :=
  match st.scopes with
  | [] => (st, false)
  | s :: rest =>
    if (s.lookup name).isSome then (st, false)
    else (⟨((name, type_name) :: s) :: rest⟩, true)

/-- `lookup`: innermost scope to outermost; type of the name, or `None`. -/
def lookup (st : SymbolTable) (name : String) : Option String :=
  go st.scopes
where
  go : List (List (String × String)) → Option String
  | [] => none
  | s :: rest => match s.lookup name with
    | some t => some t
    | none => go rest

/-- `enter_scope`: push a fresh scope. -/
def enter_scope (st : SymbolTable) : SymbolTable := ⟨[] :: st.scopes⟩

/-- `exit_scope`: pop the innermost scope; with a single scope left Python
raises, which is unreachable in the analyzer (every exit is bracketed by a
preceding enter), so the table is returned unchanged there. -/
def exit_scope (st : SymbolTable) : SymbolTable :=
  match st.scopes with
  | s₁ :: s₂ :: rest => let _ := s₁; ⟨s₂ :: rest⟩
  | _ => st

end SymbolTable

/-! ## Semantic analyzer (`semant.py`, class `SemanticAnalyzer`) -/

/-- Analyzer state: the symbol table and the accumulated diagnostics
(`SemanticError` carries only its message; `error()` never fills a line
number). -/
structure SemState where
  symbol_table : SymbolTable
  errors : List String
deriving DecidableEq, Repr

/-- A fresh `SemanticAnalyzer()`. -/
def SemState.init : SemState := ⟨SymbolTable.init, []⟩

/-- `self.error(msg)`: append a diagnostic. -/
def SemState.addError (s : SemState) (msg : String) : SemState :=
  { s with errors := s.errors ++ [msg] }

/-- Python renders an `Optional[str]` in an f-string as the string itself or
as `None`. -/
def fmtOpt : Option String → String
  | some s => s
  | none => "None"

/-- `infer_type`: structural, never reports errors.  For `BinOp` the Python
code computes the operand types recursively but then decides on the
operator alone (falling through to `None` for an unknown operator). -/
def infer_type (st : SymbolTable) : Node → Option String
  | .Literal v => some v.type_tag
  | .Identifier name => st.lookup name
  | .BinOp left op right =>
    let _ := infer_type st left
    let _ := infer_type st right
    if op = "+" ∨ op = "-" ∨ op = "*" ∨ op = "/" ∨ op = "%" then some "int"
    else if op = "<" ∨ op = "<=" ∨ op = ">" ∨ op = ">=" ∨ op = "==" then some "bool"
    else if op = "&&" ∨ op = "||" then some "bool"
    else none
  | .UnaryOp op _ =>
    if op = "!" then some "bool"
    else if op = "-" then some "int"
    else none
  | .Call _ _ => none
  | _ => none

mutual

/-- `SemanticAnalyzer.visit`, dispatching on the node's runtime class to
the `visit_*` methods, whose bodies stand in the corresponding match
arms.  All twelve node classes have a specific visitor, so
`generic_visit` is never reached.  The Python methods mutate `self`;
here the state is threaded. -/
def semVisit (s : SemState) (n : Node) : SemState :=
  match n with
  | .Program func_main => semVisit s func_main
  | .Function name body =>
    if name = "main" then semVisit s body
    else s.addError ("Función no soportada: " ++ name)
  | .Block statements =>
    let s := { s with symbol_table := s.symbol_table.enter_scope }
    let s := semVisitList s statements
    { s with symbol_table := s.symbol_table.exit_scope }
  | .VarDecl name type_name expr =>
    if ¬ (type_name = "int" ∨ type_name = "bool") then
      s.addError ("Tipo desconocido '" ++ type_name ++ "'")
    else
      let (st, ok) := s.symbol_table.declare name type_name
      if ¬ ok then
        s.addError ("Variable '" ++ name ++ "' ya fue declarada en este ámbito")
      else
        let s := { s with symbol_table := st }
        match expr with
        | none => s
        | some e =>
          let s := semVisit s e
          match infer_type s.symbol_table e with
          | none => s
          | some t =>
            if t ≠ type_name then
              s.addError ("Tipo incompatible en declaración: esperado " ++
                type_name ++ ", obtenido " ++ t)
            else s
  | .Assign name expr =>
    match s.symbol_table.lookup name with
    | none => s.addError ("Variable '" ++ name ++ "' no declarada")
    | some var_type =>
      let s := semVisit s expr
      match infer_type s.symbol_table expr with
      | none => s
      | some t =>
        if t ≠ var_type then
          s.addError ("Tipo incompatible en asignación: '" ++ name ++ "' es " ++
            var_type ++ ", pero se asigna " ++ t)
        else s
  | .Identifier name =>
    if (s.symbol_table.lookup name).isSome then s
    else s.addError ("Variable '" ++ name ++ "' no declarada")
  | .BinOp left op right =>
    let s := semVisit s left
    let s := semVisit s right
    let left_type := infer_type s.symbol_table left
    let right_type := infer_type s.symbol_table right
    if op = "+" ∨ op = "-" ∨ op = "*" ∨ op = "/" ∨ op = "%" then
      if left_type ≠ some "int" ∨ right_type ≠ some "int" then
        s.addError ("Operador '" ++ op ++ "' espera operandos int")
      else s
    else if op = "<" ∨ op = "<=" ∨ op = ">" ∨ op = ">=" ∨ op = "==" then
      -- the source returns 'bool' for '==' here without any check
      -- ("Ya validamos compatibilidad antes") and checks int for the rest
      if op = "==" then s
      else
        if left_type ≠ some "int" ∨ right_type ≠ some "int" then
          s.addError ("Comparación '" ++ op ++ "' requiere int")
        else s
    else if op = "==" then
      -- dead branch of the source: the previous branch already handled '=='
      match left_type, right_type with
      | some lt, some rt =>
        if lt ≠ rt then
          s.addError ("Comparación de igualdad entre tipos incompatibles: " ++
            lt ++ " y " ++ rt)
        else s
      | _, _ => s
    else if op = "&&" ∨ op = "||" then
      if left_type ≠ some "bool" ∨ right_type ≠ some "bool" then
        s.addError ("Operador lógico '" ++ op ++ "' espera bool")
      else s
    else s
  | .UnaryOp op expr =>
    let s := semVisit s expr
    let expr_type := infer_type s.symbol_table expr
    if op = "!" then
      if expr_type ≠ some "bool" then
        s.addError ("Operador '!' espera un operando bool, no " ++ fmtOpt expr_type)
      else s
    else if op = "-" then
      if expr_type ≠ some "int" then
        s.addError ("Operador '-' unario espera int, no " ++ fmtOpt expr_type)
      else s
    else s
  | .IfStmt cond then_body else_body =>
    let s := semVisit s cond
    let cond_type := infer_type s.symbol_table cond
    let s := if cond_type ≠ some "bool" then
        s.addError ("Condición de 'if' debe ser bool, no " ++ fmtOpt cond_type)
      else s
    let s := semVisit s then_body
    match else_body with
    | some e => semVisit s e
    | none => s
  | .ForStmt cond body =>
    let s := semVisit s cond
    let cond_type := infer_type s.symbol_table cond
    let s := if cond_type ≠ some "bool" then
        s.addError ("Condición de 'for' debe ser bool, no " ++ fmtOpt cond_type)
      else s
    semVisit s body
  | .Literal _ => s
  | .Call _ args => semVisitList s args

/-- Visiting the statements of a block / the arguments of a call in order. -/
def semVisitList (s : SemState) (ns : List Node) : SemState :=
  match ns with
  | [] => s
  | n :: rest => semVisitList (semVisit s n) rest

end

/-- `SemanticAnalyzer.analyze`: visit from a fresh instance; pass iff no
errors.  Returns the final state as well so the diagnostics list is
observable (`analyzer.errors` in `main.py`). -/
def semAnalyze (n : Node) : Bool × SemState :=
  let s := semVisit SemState.init n
  (s.errors.length = 0, s)

/-! ## LLVM-IR model (`codegen.py` on top of llvmlite)

The generator emits one function `main` made of basic blocks.  SSA values
are numbered registers; a block is referenced by its index in the
function's block list (llvmlite's `append_basic_block` appends, so indices
are stable).  A block holds its ordered instructions and its terminator
(`None` while the block is still open).  `module.globals` is modelled as
the ordered list of global names (llvmlite registers the `printf` and
`main` functions there too, which is what `len(self.module.globals)`
counts when `fmt.N` / `str.N` constants are named). -/

inductive IRType where
  | i1 | i32 | i64 | ptr
deriving DecidableEq, Repr

/-- `TYPE_MAP` of `codegen.py`; a missing key raises `KeyError`. -/
def TYPE_MAP : String → Option IRType
  | "int" => some IRType.i32
  | "bool" => some IRType.i1
  | _ => none

inductive Operand where
  | const (ty : IRType) (n : Int)
  | reg (id : Nat) (ty : IRType)
deriving DecidableEq, Repr

/-- The `.type` attribute of an llvmlite value. -/
def Operand.type : Operand → IRType
  | .const ty _ => ty
  | .reg _ ty => ty

inductive Instr where
  | alloca (res : Nat) (ty : IRType) (name : String)
  | store (val : Operand) (slot : Nat)
  | load (res : Nat) (slot : Nat) (name : String)
  | add (res : Nat) (a b : Operand)
  | sub (res : Nat) (a b : Operand)
  | mul (res : Nat) (a b : Operand)
  | sdiv (res : Nat) (a b : Operand)
  | srem (res : Nat) (a b : Operand)
  | icmp (res : Nat) (pred : String) (a b : Operand)
  | phi (res : Nat) (ty : IRType) (incoming : List (Operand × Nat))
  | bitcast (res : Nat) (global : String)
  | zext (res : Nat) (v : Operand) (ty : IRType)
  | call (res : Nat) (callee : String) (args : List Operand)
deriving DecidableEq, Repr

inductive Terminator where
  | br (target : Nat)
  | cbr (cond : Operand) (ifTrue ifFalse : Nat)
  | ret (v : Operand)
deriving DecidableEq, Repr

structure BasicBlock where
  name : String
  instrs : List Instr
  term : Option Terminator
deriving DecidableEq, Repr

instance : Inhabited BasicBlock := ⟨⟨"", [], none⟩⟩

/-- A named module global: the byte contents of a `fmt.N`/`str.N`
constant, or `[]` for the two function entries `printf` and `main`. -/
structure GlobalConst where
  name : String
  data : List Nat
deriving DecidableEq, Repr

structure IRFunction where
  name : String
  blocks : List BasicBlock
deriving DecidableEq, Repr

/-- Generator state: the module's globals, the single function `main`
being built, the builder cursor (index of the current block), the flat
variable-to-slot dict `self.vars` (as an association list where the most
recent binding stands first, matching dict assignment), and the counter
producing fresh SSA register ids. -/
structure CGState where
  globals : List GlobalConst
  func : IRFunction
  cursor : Nat
  vars : List (String × Nat × IRType)
  nextReg : Nat
deriving DecidableEq, Repr

/-- `CodeGen.__init__` + `declare_printf` + `declare_main`: module with the
`printf` declaration and the `main` function holding the open `entry`
block, builder positioned there. -/
def cgInit : CGState :=
  { globals := [⟨"printf", []⟩, ⟨"main", []⟩]
  , func := ⟨"main", [⟨"entry", [], none⟩]⟩
  , cursor := 0
  , vars := []
  , nextReg := 0 }

/-- Replace the element at an index (other positions unchanged). -/
def modifyIdx : List α → Nat → (α → α) → List α
  | [], _, _ => []
  | b :: rest, 0, f => f b :: rest
  | b :: rest, n + 1, f => b :: modifyIdx rest n f

namespace CGState

/-- Append an instruction to the current block (the builder's position). -/
def emit (s : CGState) (i : Instr) : CGState :=
  { s with func := { s.func with blocks :=
      (modifyIdx s.func.blocks s.cursor
        (fun b => { b with instrs := b.instrs ++ [i] })) } }

/-- Set the current block's terminator (`builder.branch`/`cbranch`/`ret`). -/
def setTerm (s : CGState) (t : Terminator) : CGState :=
  { s with func := { s.func with blocks :=
      (modifyIdx s.func.blocks s.cursor
        (fun b => { b with term := some t })) } }

/-- `append_basic_block`: new open block at the end; returns its index. -/
def appendBlock (s : CGState) (name : String) : CGState × Nat :=
  ({ s with func := { s.func with blocks := s.func.blocks ++ [⟨name, [], none⟩] } },
   s.func.blocks.length)

/-- `builder.position_at_end(block)`. -/
def positionAt (s : CGState) (idx : Nat) : CGState := { s with cursor := idx }

/-- A fresh SSA register id. -/
def fresh (s : CGState) : CGState × Nat :=
  ({ s with nextReg := s.nextReg + 1 }, s.nextReg)

/-- A new private constant named `base.{len(module.globals)}`. -/
def addGlobal (s : CGState) (base : String) (data : List Nat) : CGState × String :=
  let name := base ++ "." ++ toString s.globals.length
  ({ s with globals := s.globals ++ [⟨name, data⟩] }, name)

/-- The block the builder is positioned at. -/
def curBlock (s : CGState) : BasicBlock := s.func.blocks.getD s.cursor default

end CGState

/-- UTF-8 bytes of one character (Python's `str.encode('utf8')`). -/
def utf8Enc (c : Char) : List Nat :=
  let n := c.toNat
  if n < 0x80 then [n]
  else if n < 0x800 then
    [0xC0 + n / 0x40, 0x80 + n % 0x40]
  else if n < 0x10000 then
    [0xE0 + n / 0x1000, 0x80 + n / 0x40 % 0x40, 0x80 + n % 0x40]
  else
    [0xF0 + n / 0x40000, 0x80 + n / 0x1000 % 0x40, 0x80 + n / 0x40 % 0x40,
     0x80 + n % 0x40]

/-- UTF-8 encoding of a string. -/
def encodeUTF8 (s : String) : List Nat :=
  s.data.foldr (fun c acc => utf8Enc c ++ acc) []

/-- llvmlite raises when an operand that should be a value is Python
`None` (a statement visitor's result); any such raise is a generation
failure. -/
def reqVal : Option Operand → Except String Operand
  | some v => Except.ok v
  | none => Except.error "TypeError: operando None"

/-- The snippet `codegen.py` repeats for `&&`, `||` and `for`: an `int`
value feeding a boolean context is first compared against zero
(`icmp_signed('!=', val, zero)`); a value of any other type passes
through. -/
def normalizeBool (s : CGState) (v : Operand) : CGState × Operand :=
  if v.type = .i32 then
    let (s, r) := s.fresh
    (s.emit (.icmp r "!=" v (.const .i32 0)), .reg r .i1)
  else (s, v)

mutual

/-- `CodeGen.visit`, dispatching to the `visit_*` methods of
`codegen.py`.  Expression visitors return a value, statement visitors
return `none` (Python `None`); `raise` is `Except.error`. -/
def cgVisit (s : CGState) (n : Node) : Except String (Option Operand × CGState) :=
  match n with
  | .Program func_main => do
    let (_, s) ← cgVisit s func_main
    pure (none, s)
  | .Function name body =>
    if name = "main" then do
      let (_, s) ← cgVisit s body
      pure (none, s)
    else .error ("Función no soportada: " ++ name)
  | .Block statements => do
    let s ← cgStmts s statements
    pure (none, s)
  -- the two arms of `if node.expr:` in `visit_VarDecl`, with the common
  -- prologue (TYPE_MAP lookup, alloca, vars assignment) in both
  | .VarDecl name type_name none =>
    match TYPE_MAP type_name with
    | none => .error ("KeyError: " ++ type_name)
    | some ty =>
      let (s, r) := s.fresh
      let s := s.emit (.alloca r ty name)
      let s := { s with vars := (name, r, ty) :: s.vars }
      pure (none, s)
  | .VarDecl name type_name (some e) =>
    match TYPE_MAP type_name with
    | none => .error ("KeyError: " ++ type_name)
    | some ty =>
      let (s, r) := s.fresh
      let s := s.emit (.alloca r ty name)
      let s := { s with vars := (name, r, ty) :: s.vars }
      do
        let (v, s) ← cgVisit s e
        let v ← reqVal v
        pure (none, s.emit (.store v r))
  | .Assign name expr =>
    match s.vars.lookup name with
    | none => .error ("Variable no declarada (en generación): " ++ name)
    | some (slot, _) => do
      let (v, s) ← cgVisit s expr
      let v ← reqVal v
      pure (some v, s.emit (.store v slot))
  | .Identifier name =>
    match s.vars.lookup name with
    | none => .error ("Variable no encontrada: " ++ name)
    | some (slot, ty) =>
      let (s, r) := s.fresh
      pure (some (.reg r ty), s.emit (.load r slot name))
  | .Literal v =>
    match v with
    | .int n => pure (some (.const .i32 n), s)
    | .bool b => pure (some (.const .i1 (if b then 1 else 0)), s)
    | .str str =>
      let (s, gname) := s.addGlobal "str" (encodeUTF8 str ++ [0])
      let (s, r) := s.fresh
      pure (some (.reg r .ptr), s.emit (.bitcast r gname))
  | .BinOp left op right => do
    -- the source computes `left = self.visit(node.left)` and
    -- `right = self.visit(node.right)` eagerly, before dispatching on
    -- the operator; for '&&'/'||' it then visits the operands again
    let (leftV, s) ← cgVisit s left
    let (rightV, s) ← cgVisit s right
    if op = "+" then do
      let a ← reqVal leftV
      let b ← reqVal rightV
      let (s, r) := s.fresh
      pure (some (.reg r a.type), s.emit (.add r a b))
    else if op = "-" then do
      let a ← reqVal leftV
      let b ← reqVal rightV
      let (s, r) := s.fresh
      pure (some (.reg r a.type), s.emit (.sub r a b))
    else if op = "*" then do
      let a ← reqVal leftV
      let b ← reqVal rightV
      let (s, r) := s.fresh
      pure (some (.reg r a.type), s.emit (.mul r a b))
    else if op = "/" then do
      let a ← reqVal leftV
      let b ← reqVal rightV
      let (s, r) := s.fresh
      pure (some (.reg r a.type), s.emit (.sdiv r a b))
    else if op = "%" then do
      let a ← reqVal leftV
      let b ← reqVal rightV
      let (s, r) := s.fresh
      pure (some (.reg r a.type), s.emit (.srem r a b))
    else if op = "==" then do
      let a ← reqVal leftV
      if a.type = .i32 ∨ a.type = .i1 then do
        let b ← reqVal rightV
        let (s, r) := s.fresh
        pure (some (.reg r .i1), s.emit (.icmp r "==" a b))
      else
        -- the source falls off both branches and returns None
        pure (none, s)
    else if op = "<" ∨ op = "<=" ∨ op = ">" ∨ op = ">=" then do
      let a ← reqVal leftV
      let b ← reqVal rightV
      let (s, r) := s.fresh
      pure (some (.reg r .i1), s.emit (.icmp r op a b))
    else if op = "&&" then do
      let (lv, s) ← cgVisit s left
      let left_val ← reqVal lv
      let (s, left_bool) := normalizeBool s left_val
      let (s, end_block) := s.appendBlock "and.end"
      let (s, right_block) := s.appendBlock "and.right"
      let (s, merge_block) := s.appendBlock "and.merge"
      let s := s.setTerm (.cbr left_bool right_block end_block)
      let s := s.positionAt right_block
      let (rv, s) ← cgVisit s right
      let right_val ← reqVal rv
      let (s, right_bool) := normalizeBool s right_val
      let s := s.setTerm (.br merge_block)
      let s := s.positionAt end_block
      let s := s.setTerm (.br merge_block)
      let s := s.positionAt merge_block
      let (s, r) := s.fresh
      let s := s.emit (.phi r .i1 [(right_bool, right_block),
                                   (.const .i1 0, end_block)])
      pure (some (.reg r .i1), s)
    else if op = "||" then do
      let (lv, s) ← cgVisit s left
      let left_val ← reqVal lv
      let (s, left_bool) := normalizeBool s left_val
      let (s, end_block) := s.appendBlock "or.end"
      let (s, right_block) := s.appendBlock "or.right"
      let (s, merge_block) := s.appendBlock "or.merge"
      let s := s.setTerm (.cbr left_bool end_block right_block)
      let s := s.positionAt right_block
      let (rv, s) ← cgVisit s right
      let right_val ← reqVal rv
      let (s, right_bool) := normalizeBool s right_val
      let s := s.setTerm (.br merge_block)
      let s := s.positionAt end_block
      let s := s.setTerm (.br merge_block)
      let s := s.positionAt merge_block
      let (s, r) := s.fresh
      let s := s.emit (.phi r .i1 [(.const .i1 1, end_block),
                                   (right_bool, right_block)])
      pure (some (.reg r .i1), s)
    else
      -- unknown operator: the source falls off the elif chain, None
      pure (none, s)
  | .UnaryOp op e => do
    let (v, s) ← cgVisit s e
    if op = "!" then do
      let v ← reqVal v
      let (s, r) := s.fresh
      pure (some (.reg r .i1), s.emit (.icmp r "==" v (.const .i1 0)))
    else if op = "-" then do
      let v ← reqVal v
      let (s, r) := s.fresh
      pure (some (.reg r .i32), s.emit (.sub r (.const .i32 0) v))
    else .error ("Operador unario desconocido: " ++ op)
  | .IfStmt cond then_body else_body => do
    let (c, s) ← cgVisit s cond
    let c ← reqVal c
    let (s, c) ←
      if c.type = .i32 then
        let (s, r) := s.fresh
        pure (s.emit (.icmp r "!=" c (.const .i32 0)), Operand.reg r .i1)
      else if c.type ≠ .i1 then
        .error "Condición debe ser bool"
      else pure (s, c)
    let (s, then_block) := s.appendBlock "if.then"
    let (s, merge_block) := s.appendBlock "if.merge"
    let (s, else_block) :=
      match else_body with
      | some _ => s.appendBlock "if.else"
      | none => (s, merge_block)
    let s := s.setTerm (.cbr c then_block else_block)
    let s := s.positionAt then_block
    let (_, s) ← cgVisit s then_body
    let s := s.setTerm (.br merge_block)
    let s ←
      match else_body with
      | some eb => do
        let s := s.positionAt else_block
        let (_, s) ← cgVisit s eb
        pure (s.setTerm (.br merge_block))
      | none => pure s
    pure (none, s.positionAt merge_block)
  | .ForStmt cond body => do
    let (s, header) := s.appendBlock "for.header"
    let (s, bodyBlock) := s.appendBlock "for.body"
    let (s, after) := s.appendBlock "for.after"
    let s := s.setTerm (.br header)
    let s := s.positionAt header
    let (c, s) ← cgVisit s cond
    let c ← reqVal c
    let (s, c) := normalizeBool s c
    let s := s.setTerm (.cbr c bodyBlock after)
    let s := s.positionAt bodyBlock
    let (_, s) ← cgVisit s body
    let s := s.setTerm (.br header)
    pure (none, s.positionAt after)
  | .Call func_name args =>
    if func_name = "print" ∨ func_name = "println" then
      match args with
      | [] => .error "IndexError: args"
      | arg :: _ => do
        -- line 299 of the source: the argument is visited once up
        -- front, its value discarded
        let (_, s) ← cgVisit s arg
        match arg with
        | .Literal (.str v) =>
          let fmt_str := if func_name = "println" then v ++ "\n" else v
          let (s, gname) := s.addGlobal "fmt" (encodeUTF8 fmt_str ++ [0])
          let (s, r) := s.fresh
          let s := s.emit (.bitcast r gname)
          let (s, rc) := s.fresh
          let s := s.emit (.call rc "printf" [.reg r .ptr])
          pure (none, s)
        | .Identifier _ | .BinOp _ _ _ | .UnaryOp _ _ => do
          let fmt_str := if func_name = "println" then "%d\n" else "%d"
          let (s, gname) := s.addGlobal "fmt" (encodeUTF8 fmt_str ++ [0])
          let (s, rf) := s.fresh
          let s := s.emit (.bitcast rf gname)
          let (v, s) ← cgVisit s arg   -- the argument is visited again
          let v ← reqVal v
          let (s, rz) := s.fresh
          let s := s.emit (.zext rz v .i64)
          let (s, rc) := s.fresh
          let s := s.emit (.call rc "printf" [.reg rf .ptr, .reg rz .i64])
          pure (none, s)
        | _ => .error "Tipo no soportado en print"
    else .error ("Función no soportada: " ++ func_name)

/-- `visit_Block`'s loop: visit each statement, discarding results. -/
def cgStmts (s : CGState) (ns : List Node) : Except String CGState :=
  match ns with
  | [] => pure s
  | n :: rest => do
    let (_, s) ← cgVisit s n
    cgStmts s rest

end

/-- `CodeGen.compile`: only a `Program` root is accepted; after visiting,
an implicit `return 0` is appended when the current block is still open. -/
def cgCompile (ast : Node) : Except String CGState :=
  match ast with
  | .Program _ => do
    let (_, s) ← cgVisit cgInit ast
    if (s.curBlock).term.isSome then pure s
    else pure (s.setTerm (.ret (.const .i32 0)))
  | _ => .error "Nodo raíz inesperado"

/-! ## The lexer's integer-literal rule (`mg_lexer.py`, `t_NUMBER`) -/

/-- Python `int()` on a digit string: its decimal value. -/
def decimalValue (s : String) : Nat :=
  s.data.foldl (fun a c => 10 * a + (c.toNat - 48)) 0

/-- `t_NUMBER`: the rule fires on any lexeme matching `\d+` (one or more
digits) and replaces the lexeme with `int(t.value)` — arbitrary precision,
no range check of any kind. -/
def t_NUMBER (s : String) : Option Int :=
  if s ≠ "" ∧ s.data.all Char.isDigit then some ((decimalValue s : Int)) else none

/-- The signed value a 32-bit two's-complement register holds for an
integer `v`: the low 32 bits, reinterpreted signed. -/
def toSigned32 (v : Int) : Int :=
  if v % 4294967296 < 2147483648 then v % 4294967296
  else v % 4294967296 - 4294967296

/-! ## Well-formedness of generated control flow

Instrumentation for the block-termination invariant: `Opens s` is the set
of indices of blocks that are present but not yet terminated.  The
builder's discipline in `codegen.py` keeps exactly the current block open
across every `visit_*` call: each visitor may append blocks, but each
block it appends is terminated before the visitor returns, except the one
the builder ends positioned at. -/

def Opens (s : CGState) : Set Nat :=
  {i | i < s.func.blocks.length ∧ ((s.func.blocks.getD i default).term) = none}

/-- The builder is positioned at an open block. -/
def Pre (s : CGState) : Prop := s.cursor ∈ Opens s

/-- What one `visit` call guarantees: open blocks at exit are the open
blocks at entry minus the entry cursor, plus the exit cursor; open blocks
other than the entry cursor stay open; the exit cursor is open; blocks
are only appended; and the builder either never repositioned or ends on a
newly created block. -/
structure Post (s s' : CGState) : Prop where
  incl : Opens s' ⊆ (Opens s \ {s.cursor}) ∪ {s'.cursor}
  keep : Opens s \ {s.cursor} ⊆ Opens s'
  cur : s'.cursor ∈ Opens s'
  mono : s.func.blocks.length ≤ s'.func.blocks.length
  cnew : s'.cursor = s.cursor ∨ s.func.blocks.length ≤ s'.cursor

theorem mem_Opens_lt {s : CGState} {i : Nat} (h : i ∈ Opens s) :
    i < s.func.blocks.length := h.1

theorem modifyIdx_length (l : List α) (i : Nat) (f : α → α) :
    (modifyIdx l i f).length = l.length := by
  induction l generalizing i with
  | nil => rfl
  | cons b rest ih =>
    cases i with
    | zero => rfl
    | succ j => simpa [modifyIdx] using ih j

theorem modifyIdx_ge (l : List α) (i : Nat) (f : α → α)
    (h : l.length ≤ i) : modifyIdx l i f = l := by
  induction l generalizing i with
  | nil => rfl
  | cons b rest ih =>
    cases i with
    | zero => simp at h
    | succ j =>
      simp only [modifyIdx]
      rw [ih j (by simpa using Nat.le_of_succ_le_succ h)]

theorem getD_modifyIdx_self (l : List α) (i : Nat) (f : α → α) (d : α)
    (h : i < l.length) : (modifyIdx l i f).getD i d = f (l.getD i d) := by
  induction l generalizing i with
  | nil => simp at h
  | cons b rest ih =>
    cases i with
    | zero => rfl
    | succ j => simpa [modifyIdx] using ih j (by simpa using h)

theorem getD_modifyIdx_ne (l : List α) (i j : Nat) (f : α → α) (d : α)
    (h : j ≠ i) : (modifyIdx l i f).getD j d = l.getD j d := by
  induction l generalizing i j with
  | nil => rfl
  | cons b rest ih =>
    cases i with
    | zero => cases j with
      | zero => omega
      | succ j' => rfl
    | succ i' => cases j with
      | zero => rfl
      | succ j' => simpa [modifyIdx] using ih i' j' (by omega)

theorem getD_append_lt (l l' : List α) (i : Nat) (d : α) (h : i < l.length) :
    (l ++ l').getD i d = l.getD i d := by
  induction l generalizing i with
  | nil => simp at h
  | cons b rest ih =>
    cases i with
    | zero => rfl
    | succ j => simpa using ih j (by simpa using h)

theorem getD_append_ge (l l' : List α) (i : Nat) (d : α) (h : l.length ≤ i) :
    (l ++ l').getD i d = l'.getD (i - l.length) d := by
  induction l generalizing i with
  | nil => simp
  | cons b rest ih =>
    cases i with
    | zero => simp at h
    | succ j =>
      simpa using ih j (by simpa using Nat.le_of_succ_le_succ h)

theorem Opens_emit (s : CGState) (i : Instr) : Opens (s.emit i) = Opens s := by
  ext j
  simp only [Opens, CGState.emit, Set.mem_setOf_eq, modifyIdx_length]
  by_cases hlt : j < s.func.blocks.length
  · by_cases hc : j = s.cursor
    · rw [hc] at hlt ⊢
      rw [getD_modifyIdx_self _ _ _ _ hlt]
    · rw [getD_modifyIdx_ne _ _ _ _ _ hc]
  · constructor
    · rintro ⟨h, -⟩; omega
    · rintro ⟨h, -⟩; omega

theorem Opens_setTerm (s : CGState) (t : Terminator) :
    Opens (s.setTerm t) = Opens s \ {s.cursor} := by
  ext j
  simp only [Opens, CGState.setTerm, Set.mem_setOf_eq, modifyIdx_length,
    Set.mem_diff, Set.mem_singleton_iff]
  by_cases hlt : j < s.func.blocks.length
  · by_cases hc : j = s.cursor
    · rw [hc] at hlt ⊢
      rw [getD_modifyIdx_self _ _ _ _ hlt]
      simp
    · rw [getD_modifyIdx_ne _ _ _ _ _ hc]
      tauto
  · constructor
    · rintro ⟨h, -⟩; omega
    · rintro ⟨⟨h, -⟩, -⟩; omega

theorem Opens_appendBlock (s : CGState) (name : String) :
    Opens (s.appendBlock name).1 = Opens s ∪ {s.func.blocks.length} := by
  ext j
  simp only [Opens, CGState.appendBlock, Set.mem_setOf_eq, Set.mem_union,
    Set.mem_singleton_iff, List.length_append, List.length_cons,
    List.length_nil]
  by_cases hlt : j < s.func.blocks.length
  · rw [getD_append_lt _ _ _ _ hlt]
    constructor
    · rintro ⟨-, h⟩; exact Or.inl ⟨hlt, h⟩
    · rintro (⟨-, h⟩ | h)
      · exact ⟨by omega, h⟩
      · omega
  · by_cases heq : j = s.func.blocks.length
    · subst heq
      rw [getD_append_ge _ _ _ _ (le_refl _)]
      simp
    · constructor
      · rintro ⟨h, -⟩; omega
      · rintro (⟨h, -⟩ | h) <;> omega

theorem Opens_positionAt (s : CGState) (k : Nat) :
    Opens (s.positionAt k) = Opens s := rfl

theorem Opens_fresh (s : CGState) : Opens (s.fresh).1 = Opens s := rfl

theorem Opens_addGlobal (s : CGState) (b : String) (d : List Nat) :
    Opens (s.addGlobal b d).1 = Opens s := rfl

theorem Post.trans {s s' s'' : CGState} (h1 : Post s s') (h2 : Post s' s'') :
    Post s s'' := by
  refine ⟨?_, ?_, h2.cur, le_trans h1.mono h2.mono, ?_⟩
  · intro x hx
    rcases h2.incl hx with hmem | hc
    · rcases h1.incl hmem.1 with hmem1 | hc1
      · exact Or.inl hmem1
      · exact absurd hc1 hmem.2
    · exact Or.inr hc
  · intro x hx
    have hx' : x ∈ Opens s' := h1.keep hx
    by_cases hc : x = s'.cursor
    · subst hc
      rcases h1.cnew with he | hge
      · exact absurd he (by simpa using hx.2)
      · exact absurd (mem_Opens_lt hx.1) (by omega)
    · exact h2.keep ⟨hx', hc⟩
  · rcases h2.cnew with he | hge
    · rw [he]; exact h1.cnew
    · exact Or.inr (le_trans h1.mono hge)

theorem post_of_opens {s s' : CGState} (hO : Opens s' = Opens s)
    (hc : s'.cursor = s.cursor)
    (hl : s.func.blocks.length ≤ s'.func.blocks.length) (h : Pre s) :
    Post s s' := by
  refine ⟨?_, ?_, ?_, hl, Or.inl hc⟩
  · intro x hx
    rw [hO] at hx
    by_cases he : x = s.cursor
    · exact Or.inr (by rw [hc]; exact he)
    · exact Or.inl ⟨hx, he⟩
  · intro x hx
    rw [hO]
    exact hx.1
  · rw [hO, hc]; exact h

theorem post_refl {s : CGState} (h : Pre s) : Post s s :=
  post_of_opens rfl rfl (le_refl _) h

theorem post_emit {s : CGState} (i : Instr) (h : Pre s) : Post s (s.emit i) :=
  post_of_opens (Opens_emit s i) rfl (by simp [CGState.emit, modifyIdx_length]) h

@[simp] theorem except_ok_bind {α β : Type} (a : α) (f : α → Except String β) :
    (Except.ok a >>= f) = f a := rfl

@[simp] theorem except_error_bind {α β : Type} (e : String)
    (f : α → Except String β) :
    ((Except.error e : Except String α) >>= f) = .error e := rfl

/-! Unfolding equations for `cgVisit`, one per dispatch case, each holding
by definitional reduction. -/

theorem cgVisit_Program (s : CGState) (func_main : Node) :
    cgVisit s (.Program func_main) = (do
      let (_, s) ← cgVisit s func_main
      pure (none, s)) := rfl

theorem cgVisit_Function (s : CGState) (name : String) (body : Node) :
    cgVisit s (.Function name body)
      = (if name = "main" then do
          let (_, s) ← cgVisit s body
          pure (none, s)
        else .error ("Función no soportada: " ++ name)) := rfl

theorem cgVisit_Block (s : CGState) (statements : List Node) :
    cgVisit s (.Block statements) = (do
      let s ← cgStmts s statements
      pure (none, s)) := rfl

theorem cgStmts_nil (s : CGState) : cgStmts s [] = .ok s := rfl

theorem cgStmts_cons (s : CGState) (n : Node) (rest : List Node) :
    cgStmts s (n :: rest) = (do
      let (_, s) ← cgVisit s n
      cgStmts s rest) := rfl

theorem cgVisit_VarDecl_none (s : CGState) (name type_name : String) :
    cgVisit s (.VarDecl name type_name none)
      = (match TYPE_MAP type_name with
        | none => .error ("KeyError: " ++ type_name)
        | some ty =>
          let (s, r) := s.fresh
          let s := s.emit (.alloca r ty name)
          let s := { s with vars := (name, r, ty) :: s.vars }
          pure (none, s)) := rfl

theorem cgVisit_VarDecl_some (s : CGState) (name type_name : String)
    (e : Node) :
    cgVisit s (.VarDecl name type_name (some e))
      = (match TYPE_MAP type_name with
        | none => .error ("KeyError: " ++ type_name)
        | some ty =>
          let (s, r) := s.fresh
          let s := s.emit (.alloca r ty name)
          let s := { s with vars := (name, r, ty) :: s.vars }
          do
            let (v, s) ← cgVisit s e
            let v ← reqVal v
            pure (none, s.emit (.store v r))) := rfl

theorem cgVisit_Assign (s : CGState) (name : String) (expr : Node) :
    cgVisit s (.Assign name expr)
      = (match s.vars.lookup name with
        | none => .error ("Variable no declarada (en generación): " ++ name)
        | some (slot, _) => do
          let (v, s) ← cgVisit s expr
          let v ← reqVal v
          pure (some v, s.emit (.store v slot))) := rfl

theorem cgVisit_Identifier (s : CGState) (name : String) :
    cgVisit s (.Identifier name)
      = (match s.vars.lookup name with
        | none => .error ("Variable no encontrada: " ++ name)
        | some (slot, ty) =>
          let (s, r) := s.fresh
          pure (some (.reg r ty), s.emit (.load r slot name))) := rfl

theorem cgVisit_Literal (s : CGState) (v : LitVal) :
    cgVisit s (.Literal v)
      = (match v with
        | .int n => pure (some (.const .i32 n), s)
        | .bool b => pure (some (.const .i1 (if b then 1 else 0)), s)
        | .str str =>
          let (s, gname) := s.addGlobal "str" (encodeUTF8 str ++ [0])
          let (s, r) := s.fresh
          pure (some (.reg r .ptr), s.emit (.bitcast r gname))) := rfl

theorem cgVisit_BinOp (s : CGState) (left : Node) (op : String) (right : Node) :
    cgVisit s (.BinOp left op right) = (do
      let (leftV, s) ← cgVisit s left
      let (rightV, s) ← cgVisit s right
      if op = "+" then do
        let a ← reqVal leftV
        let b ← reqVal rightV
        let (s, r) := s.fresh
        pure (some (.reg r a.type), s.emit (.add r a b))
      else if op = "-" then do
        let a ← reqVal leftV
        let b ← reqVal rightV
        let (s, r) := s.fresh
        pure (some (.reg r a.type), s.emit (.sub r a b))
      else if op = "*" then do
        let a ← reqVal leftV
        let b ← reqVal rightV
        let (s, r) := s.fresh
        pure (some (.reg r a.type), s.emit (.mul r a b))
      else if op = "/" then do
        let a ← reqVal leftV
        let b ← reqVal rightV
        let (s, r) := s.fresh
        pure (some (.reg r a.type), s.emit (.sdiv r a b))
      else if op = "%" then do
        let a ← reqVal leftV
        let b ← reqVal rightV
        let (s, r) := s.fresh
        pure (some (.reg r a.type), s.emit (.srem r a b))
      else if op = "==" then do
        let a ← reqVal leftV
        if a.type = .i32 ∨ a.type = .i1 then do
          let b ← reqVal rightV
          let (s, r) := s.fresh
          pure (some (.reg r .i1), s.emit (.icmp r "==" a b))
        else
          pure (none, s)
      else if op = "<" ∨ op = "<=" ∨ op = ">" ∨ op = ">=" then do
        let a ← reqVal leftV
        let b ← reqVal rightV
        let (s, r) := s.fresh
        pure (some (.reg r .i1), s.emit (.icmp r op a b))
      else if op = "&&" then do
        let (lv, s) ← cgVisit s left
        let left_val ← reqVal lv
        let (s, left_bool) := normalizeBool s left_val
        let (s, end_block) := s.appendBlock "and.end"
        let (s, right_block) := s.appendBlock "and.right"
        let (s, merge_block) := s.appendBlock "and.merge"
        let s := s.setTerm (.cbr left_bool right_block end_block)
        let s := s.positionAt right_block
        let (rv, s) ← cgVisit s right
        let right_val ← reqVal rv
        let (s, right_bool) := normalizeBool s right_val
        let s := s.setTerm (.br merge_block)
        let s := s.positionAt end_block
        let s := s.setTerm (.br merge_block)
        let s := s.positionAt merge_block
        let (s, r) := s.fresh
        let s := s.emit (.phi r .i1 [(right_bool, right_block),
                                     (.const .i1 0, end_block)])
        pure (some (.reg r .i1), s)
      else if op = "||" then do
        let (lv, s) ← cgVisit s left
        let left_val ← reqVal lv
        let (s, left_bool) := normalizeBool s left_val
        let (s, end_block) := s.appendBlock "or.end"
        let (s, right_block) := s.appendBlock "or.right"
        let (s, merge_block) := s.appendBlock "or.merge"
        let s := s.setTerm (.cbr left_bool end_block right_block)
        let s := s.positionAt right_block
        let (rv, s) ← cgVisit s right
        let right_val ← reqVal rv
        let (s, right_bool) := normalizeBool s right_val
        let s := s.setTerm (.br merge_block)
        let s := s.positionAt end_block
        let s := s.setTerm (.br merge_block)
        let s := s.positionAt merge_block
        let (s, r) := s.fresh
        let s := s.emit (.phi r .i1 [(.const .i1 1, end_block),
                                     (right_bool, right_block)])
        pure (some (.reg r .i1), s)
      else
        pure (none, s)) := rfl

theorem cgVisit_UnaryOp (s : CGState) (op : String) (e : Node) :
    cgVisit s (.UnaryOp op e) = (do
      let (v, s) ← cgVisit s e
      if op = "!" then do
        let v ← reqVal v
        let (s, r) := s.fresh
        pure (some (.reg r .i1), s.emit (.icmp r "==" v (.const .i1 0)))
      else if op = "-" then do
        let v ← reqVal v
        let (s, r) := s.fresh
        pure (some (.reg r .i32), s.emit (.sub r (.const .i32 0) v))
      else .error ("Operador unario desconocido: " ++ op)) := rfl

theorem cgVisit_IfStmt_none (s : CGState) (cond then_body : Node) :
    cgVisit s (.IfStmt cond then_body none) = (do
      let (c, s) ← cgVisit s cond
      let c ← reqVal c
      let (s, c) ←
        if c.type = .i32 then
          let (s, r) := s.fresh
          pure (s.emit (.icmp r "!=" c (.const .i32 0)), Operand.reg r .i1)
        else if c.type ≠ .i1 then
          .error "Condición debe ser bool"
        else pure (s, c)
      let (s, then_block) := s.appendBlock "if.then"
      let (s, merge_block) := s.appendBlock "if.merge"
      let else_block := merge_block
      let s := s.setTerm (.cbr c then_block else_block)
      let s := s.positionAt then_block
      let (_, s) ← cgVisit s then_body
      let s := s.setTerm (.br merge_block)
      pure ((none : Option Operand), s.positionAt merge_block)) := rfl

theorem cgVisit_IfStmt_some (s : CGState) (cond then_body eb : Node) :
    cgVisit s (.IfStmt cond then_body (some eb)) = (do
      let (c, s) ← cgVisit s cond
      let c ← reqVal c
      let (s, c) ←
        if c.type = .i32 then
          let (s, r) := s.fresh
          pure (s.emit (.icmp r "!=" c (.const .i32 0)), Operand.reg r .i1)
        else if c.type ≠ .i1 then
          .error "Condición debe ser bool"
        else pure (s, c)
      let (s, then_block) := s.appendBlock "if.then"
      let (s, merge_block) := s.appendBlock "if.merge"
      let (s, else_block) := s.appendBlock "if.else"
      let s := s.setTerm (.cbr c then_block else_block)
      let s := s.positionAt then_block
      let (_, s) ← cgVisit s then_body
      let s := s.setTerm (.br merge_block)
      let s := s.positionAt else_block
      let (_, s) ← cgVisit s eb
      let s := s.setTerm (.br merge_block)
      pure ((none : Option Operand), s.positionAt merge_block)) := rfl

theorem cgVisit_ForStmt (s : CGState) (cond body : Node) :
    cgVisit s (.ForStmt cond body) = (do
      let (s, header) := s.appendBlock "for.header"
      let (s, bodyBlock) := s.appendBlock "for.body"
      let (s, after) := s.appendBlock "for.after"
      let s := s.setTerm (.br header)
      let s := s.positionAt header
      let (c, s) ← cgVisit s cond
      let c ← reqVal c
      let (s, c) := normalizeBool s c
      let s := s.setTerm (.cbr c bodyBlock after)
      let s := s.positionAt bodyBlock
      let (_, s) ← cgVisit s body
      let s := s.setTerm (.br header)
      pure (none, s.positionAt after)) := rfl

theorem cgVisit_Call_nil (s : CGState) (func_name : String) :
    cgVisit s (.Call func_name [])
      = (if func_name = "print" ∨ func_name = "println" then
          Except.error "IndexError: args"
        else .error ("Función no soportada: " ++ func_name)) := rfl

theorem cgVisit_Call_cons (s : CGState) (func_name : String) (arg : Node)
    (rest : List Node) :
    cgVisit s (.Call func_name (arg :: rest))
      = (if func_name = "print" ∨ func_name = "println" then do
          let (_, s) ← cgVisit s arg
          match arg with
          | .Literal (.str v) =>
            let fmt_str := if func_name = "println" then v ++ "\n" else v
            let (s, gname) := s.addGlobal "fmt" (encodeUTF8 fmt_str ++ [0])
            let (s, r) := s.fresh
            let s := s.emit (.bitcast r gname)
            let (s, rc) := s.fresh
            let s := s.emit (.call rc "printf" [.reg r .ptr])
            pure (none, s)
          | .Identifier _ | .BinOp _ _ _ | .UnaryOp _ _ => do
            let fmt_str := if func_name = "println" then "%d\n" else "%d"
            let (s, gname) := s.addGlobal "fmt" (encodeUTF8 fmt_str ++ [0])
            let (s, rf) := s.fresh
            let s := s.emit (.bitcast rf gname)
            let (v, s) ← cgVisit s arg
            let v ← reqVal v
            let (s, rz) := s.fresh
            let s := s.emit (.zext rz v .i64)
            let (s, rc) := s.fresh
            let s := s.emit (.call rc "printf" [.reg rf .ptr, .reg rz .i64])
            pure (none, s)
          | _ => .error "Tipo no soportado en print"
        else .error ("Función no soportada: " ++ func_name)) := rfl

/-! ## The block-termination invariant of the generator -/


@[simp] theorem Opens_nextReg (s : CGState) (n : Nat) :
    Opens { s with nextReg := n } = Opens s := rfl
@[simp] theorem Opens_vars_upd (s : CGState) (v : List (String × Nat × IRType)) :
    Opens { s with vars := v } = Opens s := rfl
@[simp] theorem Opens_fresh_fst (s : CGState) : Opens (s.fresh).1 = Opens s := rfl
@[simp] theorem Opens_addGlobal_fst (s : CGState) (b : String) (d : List Nat) :
    Opens (s.addGlobal b d).1 = Opens s := rfl
@[simp] theorem Opens_positionAt_simp (s : CGState) (k : Nat) :
    Opens (s.positionAt k) = Opens s := rfl
attribute [simp] Opens_emit

@[simp] theorem emit_cursor (s : CGState) (i : Instr) : (s.emit i).cursor = s.cursor := rfl
@[simp] theorem emit_length (s : CGState) (i : Instr) :
    (s.emit i).func.blocks.length = s.func.blocks.length := by
  simp [CGState.emit, modifyIdx_length]
@[simp] theorem setTerm_cursor (s : CGState) (t : Terminator) :
    (s.setTerm t).cursor = s.cursor := rfl
@[simp] theorem setTerm_length (s : CGState) (t : Terminator) :
    (s.setTerm t).func.blocks.length = s.func.blocks.length := by
  simp [CGState.setTerm, modifyIdx_length]
@[simp] theorem appendBlock_cursor (s : CGState) (nm : String) :
    ((s.appendBlock nm).1).cursor = s.cursor := rfl
@[simp] theorem appendBlock_length (s : CGState) (nm : String) :
    ((s.appendBlock nm).1).func.blocks.length = s.func.blocks.length + 1 := by
  simp [CGState.appendBlock]
@[simp] theorem appendBlock_snd (s : CGState) (nm : String) :
    (s.appendBlock nm).2 = s.func.blocks.length := rfl
@[simp] theorem positionAt_cursor (s : CGState) (k : Nat) :
    (s.positionAt k).cursor = k := rfl
@[simp] theorem positionAt_length (s : CGState) (k : Nat) :
    (s.positionAt k).func.blocks.length = s.func.blocks.length := rfl
@[simp] theorem fresh_cursor (s : CGState) : ((s.fresh).1).cursor = s.cursor := rfl
@[simp] theorem fresh_length (s : CGState) :
    ((s.fresh).1).func.blocks.length = s.func.blocks.length := rfl
@[simp] theorem addGlobal_cursor (s : CGState) (b : String) (d : List Nat) :
    ((s.addGlobal b d).1).cursor = s.cursor := rfl
@[simp] theorem addGlobal_length (s : CGState) (b : String) (d : List Nat) :
    ((s.addGlobal b d).1).func.blocks.length = s.func.blocks.length := rfl
@[simp] theorem nextReg_cursor (s : CGState) (n : Nat) :
    ({ s with nextReg := n } : CGState).cursor = s.cursor := rfl
@[simp] theorem vars_cursor (s : CGState) (v : List (String × Nat × IRType)) :
    ({ s with vars := v } : CGState).cursor = s.cursor := rfl
@[simp] theorem reqVal_some (v : Operand) : reqVal (some v) = .ok v := rfl
@[simp] theorem reqVal_none : reqVal none = .error "TypeError: operando None" := rfl
@[simp] theorem except_map_ok {α β : Type} (f : α → β) (a : α) :
    (f <$> (Except.ok a : Except String α)) = .ok (f a) := rfl
@[simp] theorem except_map_error {α β : Type} (f : α → β) (e : String) :
    (f <$> (Except.error e : Except String α)) = .error e := rfl
@[simp] theorem nextReg_length (s : CGState) (n : Nat) :
    ({ s with nextReg := n } : CGState).func.blocks.length = s.func.blocks.length := rfl
@[simp] theorem vars_length (s : CGState) (v : List (String × Nat × IRType)) :
    ({ s with vars := v } : CGState).func.blocks.length = s.func.blocks.length := rfl

theorem ok_pair_eq {α β : Type} {a r : α} {b s : β}
    (h : (Except.ok (a, b) : Except String (α × β)) = .ok (r, s)) :
    r = a ∧ s = b := by
  injection h with h'
  injection h' with h1 h2
  exact ⟨h1.symm, h2.symm⟩

theorem post_fresh_emit {s1 sf : CGState} {rf : Nat}
    (hf : s1.fresh = (sf, rf)) (i : Instr) (hpre : Pre s1) :
    Post s1 (sf.emit i) := by
  have hsf : sf = (s1.fresh).1 := by rw [hf]
  refine post_of_opens ?_ ?_ ?_ hpre
  · simp only [Opens_emit, hsf, Opens_fresh_fst]
  · simp only [emit_cursor, hsf, fresh_cursor]
  · simp only [emit_length, hsf, fresh_length]
    exact le_refl _

theorem post_freshfst_emit {s1 : CGState} (i : Instr) (hpre : Pre s1) :
    Post s1 ((s1.fresh).1.emit i) :=
  post_of_opens (by simp only [Opens_emit, Opens_fresh_fst])
    (by simp only [emit_cursor, fresh_cursor])
    (by simp only [emit_length, fresh_length]; exact le_refl _) hpre

theorem post_normalizeBool {s s' : CGState} {v v' : Operand}
    (h : normalizeBool s v = (s', v')) (hpre : Pre s) : Post s s' := by
  unfold normalizeBool at h
  split at h
  · rcases hf : s.fresh with ⟨sf, rf⟩
    rw [hf] at h
    simp only [] at h
    injection h with h1 h2
    subst h1
    exact post_fresh_emit hf _ hpre
  · injection h with h1 h2
    subst h1
    exact post_refl hpre

theorem normalizeBool_length {s s' : CGState} {v v' : Operand}
    (h : normalizeBool s v = (s', v')) :
    s'.func.blocks.length = s.func.blocks.length := by
  unfold normalizeBool at h
  split at h
  · rcases hf : s.fresh with ⟨sf, rf⟩
    rw [hf] at h
    simp only [] at h
    injection h with h1 h2
    subst h1
    have hsf : sf = (s.fresh).1 := by rw [hf]
    simp only [emit_length, hsf, fresh_length]
  · injection h with h1 h2
    subst h1
    rfl

theorem post_logic {s4 s8 s9 sF : CGState} {L : Nat}
    (hL : s4.func.blocks.length = L)
    (hpre : Pre s4)
    (hincl8 : Opens s8 ⊆
      (((((Opens s4 ∪ {L}) ∪ {L+1}) ∪ {L+2}) \ {s4.cursor}) \ {L+1}) ∪ {s8.cursor})
    (hkeep8 : ((((Opens s4 ∪ {L}) ∪ {L+1}) ∪ {L+2}) \ {s4.cursor}) \ {L+1} ⊆ Opens s8)
    (hmono8 : L + 3 ≤ s8.func.blocks.length)
    (hcnew8 : s8.cursor = L + 1 ∨ L + 3 ≤ s8.cursor)
    (p9 : Post s8 s9)
    (hOF : Opens sF = (Opens s9 \ {s9.cursor}) \ {L})
    (hcF : sF.cursor = L + 2)
    (hlF : s9.func.blocks.length ≤ sF.func.blocks.length) :
    Post s4 sF := by
  have hc4 : s4.cursor < L := hL ▸ mem_Opens_lt hpre
  have hm2 : (L+2) ∈ Opens s9 ∧ (L+2) ≠ s9.cursor := by
    have hm8 : (L+2) ∈ Opens s8 := by
      refine hkeep8 ⟨⟨Or.inr rfl, fun hx => ?_⟩, fun hx => ?_⟩
      · rw [Set.mem_singleton_iff] at hx; omega
      · rw [Set.mem_singleton_iff] at hx; omega
    have hne8 : (L+2) ≠ s8.cursor := by rcases hcnew8 with h | h <;> omega
    refine ⟨p9.keep ⟨hm8, hne8⟩, ?_⟩
    rcases p9.cnew with h | h
    · rw [h]; exact hne8
    · omega
  refine ⟨?_, ?_, ?_, ?_, ?_⟩
  · -- incl
    intro x hx
    rw [hOF] at hx
    obtain ⟨⟨hx9, hne9⟩, hneL⟩ := hx
    rw [Set.mem_singleton_iff] at hne9 hneL
    rcases p9.incl hx9 with ⟨hx8, hne8⟩ | hc
    · rcases hincl8 hx8 with ⟨⟨hbig, hnc4⟩, hneL1⟩ | hc8
      · rw [Set.mem_singleton_iff] at hnc4 hneL1
        rcases hbig with ((hx4 | hL0) | hL1) | hL2
        · exact Or.inl ⟨hx4, hnc4⟩
        · rw [Set.mem_singleton_iff] at hL0; omega
        · rw [Set.mem_singleton_iff] at hL1; omega
        · rw [Set.mem_singleton_iff] at hL2
          exact Or.inr (by rw [Set.mem_singleton_iff, hcF]; omega)
      · rw [Set.mem_singleton_iff] at hc8 hne8
        exact absurd hc8 hne8
    · rw [Set.mem_singleton_iff] at hc
      exact absurd hc hne9
  · -- keep
    intro x hx
    obtain ⟨hx4, hnc4⟩ := hx
    rw [Set.mem_singleton_iff] at hnc4
    have hxlt : x < L := hL ▸ mem_Opens_lt hx4
    have hx8 : x ∈ Opens s8 := by
      refine hkeep8 ⟨⟨Or.inl (Or.inl (Or.inl hx4)), fun hh => hnc4 hh⟩, fun hh => ?_⟩
      rw [Set.mem_singleton_iff] at hh; omega
    have hne8 : x ≠ s8.cursor := by rcases hcnew8 with h | h <;> omega
    have hx9 : x ∈ Opens s9 := p9.keep ⟨hx8, hne8⟩
    have hne9 : x ≠ s9.cursor := by
      rcases p9.cnew with h | h
      · rw [h]; exact hne8
      · omega
    rw [hOF]
    exact ⟨⟨hx9, by rw [Set.mem_singleton_iff]; exact hne9⟩,
      by rw [Set.mem_singleton_iff]; omega⟩
  · -- cur
    rw [hOF, hcF]
    exact ⟨⟨hm2.1, by rw [Set.mem_singleton_iff]; exact hm2.2⟩,
      by rw [Set.mem_singleton_iff]; omega⟩
  · -- mono
    have := p9.mono
    omega
  · -- cnew
    rw [hcF]
    omega

theorem except_bind_ok {α β : Type} {x : Except String α}
    {f : α → Except String β} {b : β}
    (h : (x >>= f) = .ok b) : ∃ a, x = .ok a ∧ f a = .ok b := by
  cases x with
  | error e => simp at h
  | ok a => exact ⟨a, rfl, by simpa using h⟩

theorem cgStmts_post (ns : List Node)
    (IH : ∀ m ∈ ns, ∀ (s : CGState) (r : Option Operand) (s' : CGState),
      Pre s → cgVisit s m = .ok (r, s') → Post s s') :
    ∀ (s s' : CGState), Pre s → cgStmts s ns = .ok s' → Post s s' := by
  induction ns with
  | nil =>
    intro s s' hpre hok
    rw [cgStmts_nil] at hok
    injection hok with h
    subst h
    exact post_refl hpre
  | cons n rest ih =>
    intro s s' hpre hok
    rw [cgStmts_cons] at hok
    cases h1 : cgVisit s n with
    | error e => rw [h1] at hok; simp at hok
    | ok p =>
      obtain ⟨v1, s1⟩ := p
      rw [h1] at hok
      simp only [except_ok_bind] at hok
      have p1 := IH n (by simp) s v1 s1 hpre h1
      exact p1.trans (ih (fun m hm => IH m (by simp [hm])) s1 s' p1.cur hok)

theorem post_if1 {s2 s6 sF : CGState} {L : Nat}
    (hL : s2.func.blocks.length = L)
    (hpre : Pre s2)
    (hincl5 : Opens s6 ⊆
      ((((Opens s2 ∪ {L}) ∪ {L+1}) \ {s2.cursor}) \ {L}) ∪ {s6.cursor})
    (hkeep5 : (((Opens s2 ∪ {L}) ∪ {L+1}) \ {s2.cursor}) \ {L} ⊆ Opens s6)
    (hmono5 : L + 2 ≤ s6.func.blocks.length)
    (hcnew5 : s6.cursor = L ∨ L + 2 ≤ s6.cursor)
    (hOF : Opens sF = Opens s6 \ {s6.cursor})
    (hcF : sF.cursor = L + 1)
    (hlF : s6.func.blocks.length ≤ sF.func.blocks.length) :
    Post s2 sF := by
  have hc2 : s2.cursor < L := hL ▸ mem_Opens_lt hpre
  have hm1 : (L+1) ∈ Opens s6 ∧ (L+1) ≠ s6.cursor := by
    refine ⟨hkeep5 ⟨⟨Or.inr rfl, fun hx => ?_⟩, fun hx => ?_⟩, ?_⟩
    · rw [Set.mem_singleton_iff] at hx; omega
    · rw [Set.mem_singleton_iff] at hx; omega
    · rcases hcnew5 with h | h <;> omega
  refine ⟨?_, ?_, ?_, ?_, ?_⟩
  · intro x hx
    rw [hOF] at hx
    obtain ⟨hx6, hne6⟩ := hx
    rw [Set.mem_singleton_iff] at hne6
    rcases hincl5 hx6 with ⟨⟨hbig, hnc2⟩, hneL⟩ | hc
    · rw [Set.mem_singleton_iff] at hnc2 hneL
      rcases hbig with (hx2 | hL0) | hL1
      · exact Or.inl ⟨hx2, hnc2⟩
      · rw [Set.mem_singleton_iff] at hL0; omega
      · rw [Set.mem_singleton_iff] at hL1
        exact Or.inr (by rw [Set.mem_singleton_iff, hcF]; omega)
    · rw [Set.mem_singleton_iff] at hc
      exact absurd hc hne6
  · intro x hx
    obtain ⟨hx2, hnc2⟩ := hx
    rw [Set.mem_singleton_iff] at hnc2
    have hxlt : x < L := hL ▸ mem_Opens_lt hx2
    have hx6 : x ∈ Opens s6 := by
      refine hkeep5 ⟨⟨Or.inl (Or.inl hx2), fun hh => hnc2 hh⟩, fun hh => ?_⟩
      rw [Set.mem_singleton_iff] at hh; omega
    have hne6 : x ≠ s6.cursor := by rcases hcnew5 with h | h <;> omega
    rw [hOF]
    exact ⟨hx6, by rw [Set.mem_singleton_iff]; exact hne6⟩
  · rw [hOF, hcF]
    exact ⟨hm1.1, by rw [Set.mem_singleton_iff]; exact hm1.2⟩
  · omega
  · rw [hcF]
    omega

theorem post_two_visits {s2 s6 s9 sF : CGState} {L a b f : Nat}
    (hL : s2.func.blocks.length = L)
    (haL : L ≤ a) (hbL : L ≤ b) (hfL : L ≤ f)
    (hab : a ≠ b) (haf : a ≠ f) (hbf : b ≠ f)
    (ha3 : a < L + 3) (hb3 : b < L + 3) (hf3 : f < L + 3)
    (hpre : Pre s2)
    (hincl5 : Opens s6 ⊆
      (((((Opens s2 ∪ {L}) ∪ {L+1}) ∪ {L+2}) \ {s2.cursor}) \ {a}) ∪ {s6.cursor})
    (hkeep5 : ((((Opens s2 ∪ {L}) ∪ {L+1}) ∪ {L+2}) \ {s2.cursor}) \ {a} ⊆ Opens s6)
    (hmono5 : L + 3 ≤ s6.func.blocks.length)
    (hcnew5 : s6.cursor = a ∨ L + 3 ≤ s6.cursor)
    (hincl8 : Opens s9 ⊆ ((Opens s6 \ {s6.cursor}) \ {b}) ∪ {s9.cursor})
    (hkeep8 : (Opens s6 \ {s6.cursor}) \ {b} ⊆ Opens s9)
    (hmono8 : s6.func.blocks.length ≤ s9.func.blocks.length)
    (hcnew8 : s9.cursor = b ∨ s6.func.blocks.length ≤ s9.cursor)
    (hOF : Opens sF = Opens s9 \ {s9.cursor})
    (hcF : sF.cursor = f)
    (hlF : s9.func.blocks.length ≤ sF.func.blocks.length) :
    Post s2 sF := by
  have hc2 : s2.cursor < L := hL ▸ mem_Opens_lt hpre
  have hmf : f ∈ Opens s9 ∧ f ≠ s9.cursor := by
    have hbig : f ∈ ((Opens s2 ∪ {L}) ∪ {L+1}) ∪ {L+2} := by
      have : f = L ∨ f = L + 1 ∨ f = L + 2 := by omega
      rcases this with h | h | h
      · exact Or.inl (Or.inl (Or.inr h))
      · exact Or.inl (Or.inr h)
      · exact Or.inr h
    have hx6 : f ∈ Opens s6 := by
      refine hkeep5 ⟨⟨hbig, fun hh => ?_⟩, fun hh => ?_⟩
      · rw [Set.mem_singleton_iff] at hh; omega
      · rw [Set.mem_singleton_iff] at hh; exact haf hh.symm
    have hne6 : f ≠ s6.cursor := by
      rcases hcnew5 with h | h
      · rw [h]; exact fun hh => haf hh.symm
      · omega
    have hx9 : f ∈ Opens s9 := by
      refine hkeep8 ⟨⟨hx6, fun hh => ?_⟩, fun hh => ?_⟩
      · rw [Set.mem_singleton_iff] at hh; exact hne6 hh
      · rw [Set.mem_singleton_iff] at hh; exact hbf hh.symm
    refine ⟨hx9, ?_⟩
    rcases hcnew8 with h | h
    · rw [h]; exact fun hh => hbf hh.symm
    · omega
  refine ⟨?_, ?_, ?_, ?_, ?_⟩
  · intro x hx
    rw [hOF] at hx
    obtain ⟨hx9, hne9⟩ := hx
    rw [Set.mem_singleton_iff] at hne9
    rcases hincl8 hx9 with ⟨⟨hx6, hne6⟩, hneb⟩ | hc
    · rw [Set.mem_singleton_iff] at hne6 hneb
      rcases hincl5 hx6 with ⟨⟨hbig, hnc2⟩, hnea⟩ | hc6
      · rw [Set.mem_singleton_iff] at hnc2 hnea
        rcases hbig with ((hx2 | hL0) | hL1) | hL2
        · exact Or.inl ⟨hx2, hnc2⟩
        · rw [Set.mem_singleton_iff] at hL0
          exact Or.inr (by rw [Set.mem_singleton_iff, hcF]; omega)
        · rw [Set.mem_singleton_iff] at hL1
          exact Or.inr (by rw [Set.mem_singleton_iff, hcF]; omega)
        · rw [Set.mem_singleton_iff] at hL2
          exact Or.inr (by rw [Set.mem_singleton_iff, hcF]; omega)
      · rw [Set.mem_singleton_iff] at hc6
        exact absurd hc6 hne6
    · rw [Set.mem_singleton_iff] at hc
      exact absurd hc hne9
  · intro x hx
    obtain ⟨hx2, hnc2⟩ := hx
    rw [Set.mem_singleton_iff] at hnc2
    have hxlt : x < L := hL ▸ mem_Opens_lt hx2
    have hx6 : x ∈ Opens s6 := by
      refine hkeep5 ⟨⟨Or.inl (Or.inl (Or.inl hx2)), fun hh => hnc2 hh⟩, fun hh => ?_⟩
      rw [Set.mem_singleton_iff] at hh; omega
    have hne6 : x ≠ s6.cursor := by rcases hcnew5 with h | h <;> omega
    have hx9 : x ∈ Opens s9 := by
      refine hkeep8 ⟨⟨hx6, fun hh => ?_⟩, fun hh => ?_⟩
      · rw [Set.mem_singleton_iff] at hh; exact hne6 hh
      · rw [Set.mem_singleton_iff] at hh; omega
    have hne9 : x ≠ s9.cursor := by rcases hcnew8 with h | h <;> omega
    rw [hOF]
    exact ⟨hx9, by rw [Set.mem_singleton_iff]; exact hne9⟩
  · rw [hOF, hcF]
    exact ⟨hmf.1, by rw [Set.mem_singleton_iff]; exact hmf.2⟩
  · omega
  · rw [hcF]
    omega

@[simp] theorem except_pure_bind {α β : Type} (a : α)
    (f : α → Except String β) :
    ((pure a : Except String α) >>= f) = f a := rfl

theorem cgVisit_post :
    ∀ (k : Nat) (n : Node), sizeOf n ≤ k →
      ∀ (s : CGState) (r : Option Operand) (s' : CGState),
        Pre s → cgVisit s n = .ok (r, s') → Post s s' := by
  intro k
  induction k with
  | zero =>
    intro n hn
    exfalso
    cases n <;> simp_arith at hn
  | succ k IHk =>
    intro n hn s r s' hpre hok
    cases n with
    | Program fm =>
      rw [cgVisit_Program] at hok
      cases h1 : cgVisit s fm with
      | error e => rw [h1] at hok; simp at hok
      | ok p =>
        obtain ⟨v1, s1⟩ := p
        rw [h1] at hok
        simp only [except_ok_bind] at hok
        obtain ⟨-, hs⟩ := ok_pair_eq hok
        subst hs
        exact IHk fm (by simp_arith at hn; omega) s v1 s' hpre h1
    | Function name body =>
      rw [cgVisit_Function] at hok
      by_cases hname : name = "main"
      · rw [if_pos hname] at hok
        cases h1 : cgVisit s body with
        | error e => rw [h1] at hok; simp at hok
        | ok p =>
          obtain ⟨v1, s1⟩ := p
          rw [h1] at hok
          simp only [except_ok_bind] at hok
          obtain ⟨-, hs⟩ := ok_pair_eq hok
          subst hs
          exact IHk body (by simp_arith at hn; omega) s v1 s' hpre h1
      · rw [if_neg hname] at hok
        simp at hok
    | Block stmts =>
      rw [cgVisit_Block] at hok
      cases h1 : cgStmts s stmts with
      | error e => rw [h1] at hok; simp at hok
      | ok s1 =>
        rw [h1] at hok
        simp only [except_ok_bind] at hok
        obtain ⟨-, hs⟩ := ok_pair_eq hok
        subst hs
        refine cgStmts_post stmts (fun m hm => ?_) s s' hpre h1
        have hsz : sizeOf m ≤ k := by
          have := List.sizeOf_lt_of_mem hm
          simp_arith at hn
          omega
        exact IHk m hsz
    | Identifier name =>
      rw [cgVisit_Identifier] at hok
      cases hv : s.vars.lookup name with
      | none => rw [hv] at hok; simp at hok
      | some p =>
        obtain ⟨slot, ty⟩ := p
        rw [hv] at hok
        simp only [CGState.fresh] at hok
        obtain ⟨-, hs⟩ := ok_pair_eq hok
        subst hs
        exact post_of_opens (by rw [Opens_emit]; rfl) (by simp) (by simp) hpre
    | Literal v =>
      rw [cgVisit_Literal] at hok
      cases v with
      | int n =>
        simp only [] at hok
        obtain ⟨-, hs⟩ := ok_pair_eq hok
        subst hs
        exact post_refl hpre
      | bool b =>
        simp only [] at hok
        obtain ⟨-, hs⟩ := ok_pair_eq hok
        subst hs
        exact post_refl hpre
      | str str =>
        simp only [CGState.addGlobal, CGState.fresh] at hok
        obtain ⟨-, hs⟩ := ok_pair_eq hok
        subst hs
        exact post_of_opens (by rw [Opens_emit]; rfl) (by simp) (by simp) hpre
    | VarDecl name tn expr =>
      cases expr with
      | none =>
        rw [cgVisit_VarDecl_none] at hok
        cases hty : TYPE_MAP tn with
        | none => rw [hty] at hok; simp at hok
        | some ty =>
          rw [hty] at hok
          rcases hf : s.fresh with ⟨sf, rf⟩
          have hsf : sf = (s.fresh).1 := by rw [hf]
          rw [hf] at hok
          simp only [] at hok
          obtain ⟨-, hs⟩ := ok_pair_eq hok
          subst hs
          refine post_of_opens ?_ ?_ ?_ hpre
          · simp only [Opens_vars_upd, Opens_emit, hsf, Opens_fresh_fst]
          · simp only [vars_cursor, emit_cursor, hsf, fresh_cursor]
          · simp only [vars_length, emit_length, hsf, fresh_length]
            exact le_refl _
      | some e =>
        rw [cgVisit_VarDecl_some] at hok
        cases hty : TYPE_MAP tn with
        | none => rw [hty] at hok; simp at hok
        | some ty =>
          rw [hty] at hok
          rcases hf : s.fresh with ⟨sf, rf⟩
          have hsf : sf = (s.fresh).1 := by rw [hf]
          rw [hf] at hok
          simp only [] at hok
          obtain ⟨⟨v1, s1⟩, h1, hok2⟩ := except_bind_ok hok
          have pE : Post s { sf.emit (.alloca rf ty name) with
              vars := (name, rf, ty) :: (sf.emit (.alloca rf ty name)).vars } := by
            refine post_of_opens ?_ ?_ ?_ hpre
            · simp only [Opens_vars_upd, Opens_emit, hsf, Opens_fresh_fst]
            · simp only [vars_cursor, emit_cursor, hsf, fresh_cursor]
            · simp only [vars_length, emit_length, hsf, fresh_length]
              exact le_refl _
          have p1 := IHk e (by simp_arith at hn; omega) _ v1 s1 pE.cur h1
          cases v1 with
          | none => simp at hok2
          | some v =>
            simp only [reqVal_some, except_ok_bind] at hok2
            obtain ⟨-, hs⟩ := ok_pair_eq hok2
            subst hs
            exact (pE.trans p1).trans (post_emit _ p1.cur)
    | Assign name expr =>
      rw [cgVisit_Assign] at hok
      cases hv : s.vars.lookup name with
      | none => rw [hv] at hok; simp at hok
      | some p =>
        obtain ⟨slot, ty⟩ := p
        rw [hv] at hok
        simp only [] at hok
        obtain ⟨⟨v1, s1⟩, h1, hok2⟩ := except_bind_ok hok
        have p1 := IHk expr (by simp_arith at hn; omega) s v1 s1 hpre h1
        cases v1 with
        | none => simp at hok2
        | some v =>
          simp only [reqVal_some, except_ok_bind] at hok2
          obtain ⟨-, hs⟩ := ok_pair_eq hok2
          subst hs
          exact p1.trans (post_emit _ p1.cur)
    | BinOp left op right =>
      rw [cgVisit_BinOp] at hok
      obtain ⟨⟨v1, s1⟩, h1, hok⟩ := except_bind_ok hok
      simp only [] at hok
      obtain ⟨⟨v2, s2⟩, h2, hok⟩ := except_bind_ok hok
      simp only [] at hok
      have hszl : sizeOf left ≤ k := by simp_arith at hn; omega
      have hszr : sizeOf right ≤ k := by simp_arith at hn; omega
      have p1 := IHk left hszl s v1 s1 hpre h1
      have p2 := IHk right hszr s1 v2 s2 p1.cur h2
      have pp := p1.trans p2
      by_cases hop1 : op = "+"
      · rw [if_pos hop1] at hok
        cases v1 with
        | none => simp at hok
        | some a =>
          cases v2 with
          | none => simp at hok
          | some b =>
            simp only [reqVal_some, except_map_ok, except_ok_bind] at hok
            obtain ⟨-, hs⟩ := ok_pair_eq hok
            subst hs
            exact pp.trans (post_freshfst_emit _ pp.cur)
      · rw [if_neg hop1] at hok
        by_cases hop2 : op = "-"
        · rw [if_pos hop2] at hok
          cases v1 with
          | none => simp at hok
          | some a =>
            cases v2 with
            | none => simp at hok
            | some b =>
              simp only [reqVal_some, except_map_ok, except_ok_bind] at hok
              obtain ⟨-, hs⟩ := ok_pair_eq hok
              subst hs
              exact pp.trans (post_freshfst_emit _ pp.cur)
        · rw [if_neg hop2] at hok
          by_cases hop3 : op = "*"
          · rw [if_pos hop3] at hok
            cases v1 with
            | none => simp at hok
            | some a =>
              cases v2 with
              | none => simp at hok
              | some b =>
                simp only [reqVal_some, except_map_ok, except_ok_bind] at hok
                obtain ⟨-, hs⟩ := ok_pair_eq hok
                subst hs
                exact pp.trans (post_freshfst_emit _ pp.cur)
          · rw [if_neg hop3] at hok
            by_cases hop4 : op = "/"
            · rw [if_pos hop4] at hok
              cases v1 with
              | none => simp at hok
              | some a =>
                cases v2 with
                | none => simp at hok
                | some b =>
                  simp only [reqVal_some, except_map_ok, except_ok_bind] at hok
                  obtain ⟨-, hs⟩ := ok_pair_eq hok
                  subst hs
                  exact pp.trans (post_freshfst_emit _ pp.cur)
            · rw [if_neg hop4] at hok
              by_cases hop5 : op = "%"
              · rw [if_pos hop5] at hok
                cases v1 with
                | none => simp at hok
                | some a =>
                  cases v2 with
                  | none => simp at hok
                  | some b =>
                    simp only [reqVal_some, except_map_ok, except_ok_bind] at hok
                    obtain ⟨-, hs⟩ := ok_pair_eq hok
                    subst hs
                    exact pp.trans (post_freshfst_emit _ pp.cur)
              · rw [if_neg hop5] at hok
                by_cases hop6 : op = "=="
                · rw [if_pos hop6] at hok
                  cases v1 with
                  | none => simp at hok
                  | some a =>
                    simp only [reqVal_some, except_ok_bind] at hok
                    by_cases ht : (Operand.type a = IRType.i32 ∨ Operand.type a = IRType.i1)
                    · rw [if_pos ht] at hok
                      cases v2 with
                      | none => simp at hok
                      | some b =>
                        simp only [reqVal_some, except_map_ok, except_ok_bind] at hok
                        obtain ⟨-, hs⟩ := ok_pair_eq hok
                        subst hs
                        exact pp.trans (post_freshfst_emit _ pp.cur)
                    · rw [if_neg ht] at hok
                      obtain ⟨-, hs⟩ := ok_pair_eq hok
                      subst hs
                      exact pp
                · rw [if_neg hop6] at hok
                  by_cases hop7 : (op = "<" ∨ op = "<=" ∨ op = ">" ∨ op = ">=")
                  · rw [if_pos hop7] at hok
                    cases v1 with
                    | none => simp at hok
                    | some a =>
                      cases v2 with
                      | none => simp at hok
                      | some b =>
                        simp only [reqVal_some, except_map_ok, except_ok_bind] at hok
                        obtain ⟨-, hs⟩ := ok_pair_eq hok
                        subst hs
                        exact pp.trans (post_freshfst_emit _ pp.cur)
                  · rw [if_neg hop7] at hok
                    by_cases hop8 : op = "&&"
                    · rw [if_pos hop8] at hok
                      obtain ⟨⟨lv, s3⟩, h3, hok⟩ := except_bind_ok hok
                      simp only [] at hok
                      have p3 := IHk left hszl s2 lv s3 pp.cur h3
                      cases lv with
                      | none => simp at hok
                      | some left_val =>
                        simp only [reqVal_some, except_ok_bind] at hok
                        rcases hnorm : normalizeBool s3 left_val with ⟨s4, lb⟩
                        rw [hnorm] at hok
                        simp only [] at hok
                        have p4 := post_normalizeBool hnorm p3.cur
                        rcases ha1 : s4.appendBlock "and.end" with ⟨sA, eIdx⟩
                        rw [ha1] at hok
                        simp only [] at hok
                        rcases ha2 : sA.appendBlock "and.right" with ⟨sB, rIdx⟩
                        rw [ha2] at hok
                        simp only [] at hok
                        rcases ha3 : sB.appendBlock "and.merge" with ⟨sC, mIdx⟩
                        rw [ha3] at hok
                        simp only [] at hok
                        have hsA : sA = (s4.appendBlock "and.end").1 := by rw [ha1]
                        have hsB : sB = (sA.appendBlock "and.right").1 := by rw [ha2]
                        have hsC : sC = (sB.appendBlock "and.merge").1 := by rw [ha3]
                        have heIdx : eIdx = s4.func.blocks.length := by
                          have h0 : eIdx = (s4.appendBlock "and.end").2 := by rw [ha1]
                          rw [h0, appendBlock_snd]
                        have hrIdx : rIdx = s4.func.blocks.length + 1 := by
                          have h0 : rIdx = (sA.appendBlock "and.right").2 := by rw [ha2]
                          rw [h0, appendBlock_snd, hsA, appendBlock_length]
                        have hmIdx : mIdx = s4.func.blocks.length + 1 + 1 := by
                          have h0 : mIdx = (sB.appendBlock "and.merge").2 := by rw [ha3]
                          rw [h0, appendBlock_snd, hsB, appendBlock_length, hsA, appendBlock_length]
                        have hc4lt : s4.cursor < s4.func.blocks.length := mem_Opens_lt p4.cur
                        have hOS7 : Opens ((sC.setTerm (Terminator.cbr lb rIdx eIdx)).positionAt rIdx)
                            = (((Opens s4 ∪ {s4.func.blocks.length})
                                ∪ {s4.func.blocks.length + 1}) ∪ {s4.func.blocks.length + 1 + 1})
                              \ {s4.cursor} := by
                          simp only [Opens_positionAt_simp, Opens_setTerm, hsC, Opens_appendBlock,
                            hsB, hsA, appendBlock_length, appendBlock_cursor]
                        have hcS7 : ((sC.setTerm (Terminator.cbr lb rIdx eIdx)).positionAt rIdx).cursor
                            = s4.func.blocks.length + 1 := by
                          simp only [positionAt_cursor, hrIdx]
                        have hlS7 : ((sC.setTerm (Terminator.cbr lb rIdx eIdx)).positionAt rIdx).func.blocks.length
                            = s4.func.blocks.length + 1 + 1 + 1 := by
                          simp only [positionAt_length, setTerm_length, hsC, appendBlock_length,
                            hsB, hsA]
                        have hpre7 : Pre ((sC.setTerm (Terminator.cbr lb rIdx eIdx)).positionAt rIdx) := by
                          show _ ∈ Opens _
                          rw [hOS7]
                          rw [show ((sC.setTerm (Terminator.cbr lb rIdx eIdx)).positionAt rIdx).cursor = rIdx from rfl]
                          rw [hrIdx]
                          refine ⟨Or.inl (Or.inr rfl), fun hh => ?_⟩
                          rw [Set.mem_singleton_iff] at hh
                          omega
                        obtain ⟨⟨rv, s8⟩, h8, hok⟩ := except_bind_ok hok
                        simp only [] at hok
                        have p8 := IHk right hszr _ rv s8 hpre7 h8
                        cases rv with
                        | none => simp at hok
                        | some right_val =>
                          simp only [reqVal_some, except_ok_bind] at hok
                          rcases hnorm2 : normalizeBool s8 right_val with ⟨s9, rb⟩
                          rw [hnorm2] at hok
                          simp only [] at hok
                          have p9 := post_normalizeBool hnorm2 p8.cur
                          rcases hff : ((((s9.setTerm (.br mIdx)).positionAt eIdx).setTerm
                              (.br mIdx)).positionAt mIdx).fresh with ⟨sD, rD⟩
                          rw [hff] at hok
                          simp only [] at hok
                          obtain ⟨-, hs⟩ := ok_pair_eq hok
                          subst hs
                          have hsD : sD = ((((s9.setTerm (.br mIdx)).positionAt eIdx).setTerm
                              (.br mIdx)).positionAt mIdx).fresh.1 := by rw [hff]
                          have hincl8 := p8.incl
                          rw [hOS7, hcS7] at hincl8
                          have hkeep8 := p8.keep
                          rw [hOS7, hcS7] at hkeep8
                          have hmono8 := p8.mono
                          rw [hlS7] at hmono8
                          have hcnew8 := p8.cnew
                          rw [hcS7, hlS7] at hcnew8
                          refine pp.trans (p3.trans (p4.trans
                            (post_logic rfl p4.cur hincl8 hkeep8 hmono8 hcnew8 p9 ?_ ?_ ?_)))
                          · simp only [Opens_emit, hsD, Opens_fresh_fst, Opens_positionAt_simp,
                              Opens_setTerm, positionAt_cursor, heIdx]
                          · simp only [emit_cursor, hsD, fresh_cursor, positionAt_cursor, hmIdx]
                          · simp only [emit_length, hsD, fresh_length, positionAt_length,
                              setTerm_length]
                            exact le_refl _
                    · rw [if_neg hop8] at hok
                      by_cases hop9 : op = "||"
                      · rw [if_pos hop9] at hok
                        obtain ⟨⟨lv, s3⟩, h3, hok⟩ := except_bind_ok hok
                        simp only [] at hok
                        have p3 := IHk left hszl s2 lv s3 pp.cur h3
                        cases lv with
                        | none => simp at hok
                        | some left_val =>
                          simp only [reqVal_some, except_ok_bind] at hok
                          rcases hnorm : normalizeBool s3 left_val with ⟨s4, lb⟩
                          rw [hnorm] at hok
                          simp only [] at hok
                          have p4 := post_normalizeBool hnorm p3.cur
                          rcases ha1 : s4.appendBlock "or.end" with ⟨sA, eIdx⟩
                          rw [ha1] at hok
                          simp only [] at hok
                          rcases ha2 : sA.appendBlock "or.right" with ⟨sB, rIdx⟩
                          rw [ha2] at hok
                          simp only [] at hok
                          rcases ha3 : sB.appendBlock "or.merge" with ⟨sC, mIdx⟩
                          rw [ha3] at hok
                          simp only [] at hok
                          have hsA : sA = (s4.appendBlock "or.end").1 := by rw [ha1]
                          have hsB : sB = (sA.appendBlock "or.right").1 := by rw [ha2]
                          have hsC : sC = (sB.appendBlock "or.merge").1 := by rw [ha3]
                          have heIdx : eIdx = s4.func.blocks.length := by
                            have h0 : eIdx = (s4.appendBlock "or.end").2 := by rw [ha1]
                            rw [h0, appendBlock_snd]
                          have hrIdx : rIdx = s4.func.blocks.length + 1 := by
                            have h0 : rIdx = (sA.appendBlock "or.right").2 := by rw [ha2]
                            rw [h0, appendBlock_snd, hsA, appendBlock_length]
                          have hmIdx : mIdx = s4.func.blocks.length + 1 + 1 := by
                            have h0 : mIdx = (sB.appendBlock "or.merge").2 := by rw [ha3]
                            rw [h0, appendBlock_snd, hsB, appendBlock_length, hsA, appendBlock_length]
                          have hc4lt : s4.cursor < s4.func.blocks.length := mem_Opens_lt p4.cur
                          have hOS7 : Opens ((sC.setTerm (Terminator.cbr lb eIdx rIdx)).positionAt rIdx)
                              = (((Opens s4 ∪ {s4.func.blocks.length})
                                  ∪ {s4.func.blocks.length + 1}) ∪ {s4.func.blocks.length + 1 + 1})
                                \ {s4.cursor} := by
                            simp only [Opens_positionAt_simp, Opens_setTerm, hsC, Opens_appendBlock,
                              hsB, hsA, appendBlock_length, appendBlock_cursor]
                          have hcS7 : ((sC.setTerm (Terminator.cbr lb eIdx rIdx)).positionAt rIdx).cursor
                              = s4.func.blocks.length + 1 := by
                            simp only [positionAt_cursor, hrIdx]
                          have hlS7 : ((sC.setTerm (Terminator.cbr lb eIdx rIdx)).positionAt rIdx).func.blocks.length
                              = s4.func.blocks.length + 1 + 1 + 1 := by
                            simp only [positionAt_length, setTerm_length, hsC, appendBlock_length,
                              hsB, hsA]
                          have hpre7 : Pre ((sC.setTerm (Terminator.cbr lb eIdx rIdx)).positionAt rIdx) := by
                            show _ ∈ Opens _
                            rw [hOS7]
                            rw [show ((sC.setTerm (Terminator.cbr lb eIdx rIdx)).positionAt rIdx).cursor = rIdx from rfl]
                            rw [hrIdx]
                            refine ⟨Or.inl (Or.inr rfl), fun hh => ?_⟩
                            rw [Set.mem_singleton_iff] at hh
                            omega
                          obtain ⟨⟨rv, s8⟩, h8, hok⟩ := except_bind_ok hok
                          simp only [] at hok
                          have p8 := IHk right hszr _ rv s8 hpre7 h8
                          cases rv with
                          | none => simp at hok
                          | some right_val =>
                            simp only [reqVal_some, except_ok_bind] at hok
                            rcases hnorm2 : normalizeBool s8 right_val with ⟨s9, rb⟩
                            rw [hnorm2] at hok
                            simp only [] at hok
                            have p9 := post_normalizeBool hnorm2 p8.cur
                            rcases hff : ((((s9.setTerm (.br mIdx)).positionAt eIdx).setTerm
                                (.br mIdx)).positionAt mIdx).fresh with ⟨sD, rD⟩
                            rw [hff] at hok
                            simp only [] at hok
                            obtain ⟨-, hs⟩ := ok_pair_eq hok
                            subst hs
                            have hsD : sD = ((((s9.setTerm (.br mIdx)).positionAt eIdx).setTerm
                                (.br mIdx)).positionAt mIdx).fresh.1 := by rw [hff]
                            have hincl8 := p8.incl
                            rw [hOS7, hcS7] at hincl8
                            have hkeep8 := p8.keep
                            rw [hOS7, hcS7] at hkeep8
                            have hmono8 := p8.mono
                            rw [hlS7] at hmono8
                            have hcnew8 := p8.cnew
                            rw [hcS7, hlS7] at hcnew8
                            refine pp.trans (p3.trans (p4.trans
                              (post_logic rfl p4.cur hincl8 hkeep8 hmono8 hcnew8 p9 ?_ ?_ ?_)))
                            · simp only [Opens_emit, hsD, Opens_fresh_fst, Opens_positionAt_simp,
                                Opens_setTerm, positionAt_cursor, heIdx]
                            · simp only [emit_cursor, hsD, fresh_cursor, positionAt_cursor, hmIdx]
                            · simp only [emit_length, hsD, fresh_length, positionAt_length,
                                setTerm_length]
                              exact le_refl _
                      · rw [if_neg hop9] at hok
                        obtain ⟨-, hs⟩ := ok_pair_eq hok
                        subst hs
                        exact pp
    | UnaryOp op e =>
      rw [cgVisit_UnaryOp] at hok
      obtain ⟨⟨v1, s1⟩, h1, hok2⟩ := except_bind_ok hok
      simp only [] at hok2
      have p1 := IHk e (by simp_arith at hn; omega) s v1 s1 hpre h1
      split at hok2
      · cases v1 with
        | none => simp at hok2
        | some v =>
          simp only [reqVal_some, except_map_ok, except_ok_bind] at hok2
          obtain ⟨-, hs⟩ := ok_pair_eq hok2
          subst hs
          exact p1.trans (post_freshfst_emit _ p1.cur)
      · split at hok2
        · cases v1 with
          | none => simp at hok2
          | some v =>
            simp only [reqVal_some, except_map_ok, except_ok_bind] at hok2
            obtain ⟨-, hs⟩ := ok_pair_eq hok2
            subst hs
            exact p1.trans (post_freshfst_emit _ p1.cur)
        · simp at hok2
    | IfStmt cond tb eb =>
      have hszc : sizeOf cond ≤ k := by simp_arith at hn; omega
      have hszt : sizeOf tb ≤ k := by simp_arith at hn; omega
      cases eb with
      | none =>
        rw [cgVisit_IfStmt_none] at hok
        obtain ⟨⟨cv, s1⟩, h1, hok⟩ := except_bind_ok hok
        simp only [] at hok
        have p1 := IHk cond hszc s cv s1 hpre h1
        cases cv with
        | none => simp at hok
        | some c =>
          simp only [reqVal_some, except_ok_bind] at hok
          by_cases ht1 : Operand.type c = IRType.i32
          · rw [if_pos ht1] at hok
            rcases hf : s1.fresh with ⟨sf, rfr⟩
            rw [hf] at hok
            simp only [except_pure_bind] at hok
            generalize hs2 : sf.emit (Instr.icmp rfr "!=" c
              (Operand.const IRType.i32 0)) = s2 at hok
            generalize hc2 : Operand.reg rfr IRType.i1 = c2 at hok
            have p2 : Post s1 s2 := by
              rw [← hs2]
              exact post_fresh_emit hf _ p1.cur
            rcases hb1 : s2.appendBlock "if.then" with ⟨sA, tIdx⟩
            rw [hb1] at hok
            simp only [] at hok
            rcases hb2 : sA.appendBlock "if.merge" with ⟨sB, mIdx⟩
            rw [hb2] at hok
            simp only [] at hok
            have hsA : sA = (s2.appendBlock "if.then").1 := by rw [hb1]
            have hsB : sB = (sA.appendBlock "if.merge").1 := by rw [hb2]
            have htIdx : tIdx = s2.func.blocks.length := by
              have h0 : tIdx = (s2.appendBlock "if.then").2 := by rw [hb1]
              rw [h0, appendBlock_snd]
            have hmIdx : mIdx = s2.func.blocks.length + 1 := by
              have h0 : mIdx = (sA.appendBlock "if.merge").2 := by rw [hb2]
              rw [h0, appendBlock_snd, hsA, appendBlock_length]
            have hc2lt : s2.cursor < s2.func.blocks.length := mem_Opens_lt p2.cur
            have hOS5 : Opens ((sB.setTerm (Terminator.cbr c2 tIdx mIdx)).positionAt tIdx)
                = ((Opens s2 ∪ {s2.func.blocks.length})
                    ∪ {s2.func.blocks.length + 1}) \ {s2.cursor} := by
              simp only [Opens_positionAt_simp, Opens_setTerm, hsB, Opens_appendBlock,
                hsA, appendBlock_length, appendBlock_cursor]
            have hcS5 : ((sB.setTerm (Terminator.cbr c2 tIdx mIdx)).positionAt tIdx).cursor
                = s2.func.blocks.length := by
              simp only [positionAt_cursor, htIdx]
            have hlS5 : ((sB.setTerm (Terminator.cbr c2 tIdx mIdx)).positionAt
                tIdx).func.blocks.length = s2.func.blocks.length + 1 + 1 := by
              simp only [positionAt_length, setTerm_length, hsB, appendBlock_length, hsA]
            have hpre5 : Pre ((sB.setTerm (Terminator.cbr c2 tIdx mIdx)).positionAt tIdx) := by
              show _ ∈ Opens _
              rw [hOS5]
              rw [show ((sB.setTerm (Terminator.cbr c2 tIdx mIdx)).positionAt tIdx).cursor
                = tIdx from rfl]
              rw [htIdx]
              refine ⟨Or.inl (Or.inr rfl), fun hh => ?_⟩
              rw [Set.mem_singleton_iff] at hh
              omega
            obtain ⟨⟨tv, s6⟩, h6, hok⟩ := except_bind_ok hok
            simp only [] at hok
            have p6 := IHk tb hszt _ tv s6 hpre5 h6
            obtain ⟨-, hs⟩ := ok_pair_eq hok
            subst hs
            have hincl5 := p6.incl
            rw [hOS5, hcS5] at hincl5
            have hkeep5 := p6.keep
            rw [hOS5, hcS5] at hkeep5
            have hmono5 := p6.mono
            rw [hlS5] at hmono5
            have hcnew5 := p6.cnew
            rw [hcS5, hlS5] at hcnew5
            have hOF : Opens ((s6.setTerm (Terminator.br mIdx)).positionAt mIdx)
                = Opens s6 \ {s6.cursor} := by
              simp only [Opens_positionAt_simp, Opens_setTerm]
            have hcF : ((s6.setTerm (Terminator.br mIdx)).positionAt mIdx).cursor
                = s2.func.blocks.length + 1 := by
              simp only [positionAt_cursor, hmIdx]
            have hlF : s6.func.blocks.length
                ≤ ((s6.setTerm (Terminator.br mIdx)).positionAt mIdx).func.blocks.length := by
              simp only [positionAt_length, setTerm_length, le_refl]
            exact (p1.trans p2).trans
              (post_if1 rfl p2.cur hincl5 hkeep5 hmono5 hcnew5 hOF hcF hlF)
          · rw [if_neg ht1] at hok
            by_cases ht2 : Operand.type c ≠ IRType.i1
            · rw [if_pos ht2] at hok
              simp at hok
            · rw [if_neg ht2] at hok
              simp only [except_pure_bind] at hok
              generalize hs2 : s1 = s2 at hok
              generalize hc2 : c = c2 at hok
              have p2 : Post s1 s2 := by
                rw [← hs2]
                exact post_refl p1.cur
              rcases hb1 : s2.appendBlock "if.then" with ⟨sA, tIdx⟩
              rw [hb1] at hok
              simp only [] at hok
              rcases hb2 : sA.appendBlock "if.merge" with ⟨sB, mIdx⟩
              rw [hb2] at hok
              simp only [] at hok
              have hsA : sA = (s2.appendBlock "if.then").1 := by rw [hb1]
              have hsB : sB = (sA.appendBlock "if.merge").1 := by rw [hb2]
              have htIdx : tIdx = s2.func.blocks.length := by
                have h0 : tIdx = (s2.appendBlock "if.then").2 := by rw [hb1]
                rw [h0, appendBlock_snd]
              have hmIdx : mIdx = s2.func.blocks.length + 1 := by
                have h0 : mIdx = (sA.appendBlock "if.merge").2 := by rw [hb2]
                rw [h0, appendBlock_snd, hsA, appendBlock_length]
              have hc2lt : s2.cursor < s2.func.blocks.length := mem_Opens_lt p2.cur
              have hOS5 : Opens ((sB.setTerm (Terminator.cbr c2 tIdx mIdx)).positionAt tIdx)
                  = ((Opens s2 ∪ {s2.func.blocks.length})
                      ∪ {s2.func.blocks.length + 1}) \ {s2.cursor} := by
                simp only [Opens_positionAt_simp, Opens_setTerm, hsB, Opens_appendBlock,
                  hsA, appendBlock_length, appendBlock_cursor]
              have hcS5 : ((sB.setTerm (Terminator.cbr c2 tIdx mIdx)).positionAt tIdx).cursor
                  = s2.func.blocks.length := by
                simp only [positionAt_cursor, htIdx]
              have hlS5 : ((sB.setTerm (Terminator.cbr c2 tIdx mIdx)).positionAt
                  tIdx).func.blocks.length = s2.func.blocks.length + 1 + 1 := by
                simp only [positionAt_length, setTerm_length, hsB, appendBlock_length, hsA]
              have hpre5 : Pre ((sB.setTerm (Terminator.cbr c2 tIdx mIdx)).positionAt tIdx) := by
                show _ ∈ Opens _
                rw [hOS5]
                rw [show ((sB.setTerm (Terminator.cbr c2 tIdx mIdx)).positionAt tIdx).cursor
                  = tIdx from rfl]
                rw [htIdx]
                refine ⟨Or.inl (Or.inr rfl), fun hh => ?_⟩
                rw [Set.mem_singleton_iff] at hh
                omega
              obtain ⟨⟨tv, s6⟩, h6, hok⟩ := except_bind_ok hok
              simp only [] at hok
              have p6 := IHk tb hszt _ tv s6 hpre5 h6
              obtain ⟨-, hs⟩ := ok_pair_eq hok
              subst hs
              have hincl5 := p6.incl
              rw [hOS5, hcS5] at hincl5
              have hkeep5 := p6.keep
              rw [hOS5, hcS5] at hkeep5
              have hmono5 := p6.mono
              rw [hlS5] at hmono5
              have hcnew5 := p6.cnew
              rw [hcS5, hlS5] at hcnew5
              have hOF : Opens ((s6.setTerm (Terminator.br mIdx)).positionAt mIdx)
                  = Opens s6 \ {s6.cursor} := by
                simp only [Opens_positionAt_simp, Opens_setTerm]
              have hcF : ((s6.setTerm (Terminator.br mIdx)).positionAt mIdx).cursor
                  = s2.func.blocks.length + 1 := by
                simp only [positionAt_cursor, hmIdx]
              have hlF : s6.func.blocks.length
                  ≤ ((s6.setTerm (Terminator.br mIdx)).positionAt mIdx).func.blocks.length := by
                simp only [positionAt_length, setTerm_length, le_refl]
              exact (p1.trans p2).trans
                (post_if1 rfl p2.cur hincl5 hkeep5 hmono5 hcnew5 hOF hcF hlF)
      | some eb2 =>
        have hsze : sizeOf eb2 ≤ k := by simp_arith at hn; omega
        rw [cgVisit_IfStmt_some] at hok
        obtain ⟨⟨cv, s1⟩, h1, hok⟩ := except_bind_ok hok
        simp only [] at hok
        have p1 := IHk cond hszc s cv s1 hpre h1
        cases cv with
        | none => simp at hok
        | some c =>
          simp only [reqVal_some, except_ok_bind] at hok
          by_cases ht1 : Operand.type c = IRType.i32
          · rw [if_pos ht1] at hok
            rcases hf : s1.fresh with ⟨sf, rfr⟩
            rw [hf] at hok
            simp only [except_pure_bind] at hok
            generalize hs2 : sf.emit (Instr.icmp rfr "!=" c
              (Operand.const IRType.i32 0)) = s2 at hok
            generalize hc2 : Operand.reg rfr IRType.i1 = c2 at hok
            have p2 : Post s1 s2 := by
              rw [← hs2]
              exact post_fresh_emit hf _ p1.cur
            rcases hb1 : s2.appendBlock "if.then" with ⟨sA, tIdx⟩
            rw [hb1] at hok
            simp only [] at hok
            rcases hb2 : sA.appendBlock "if.merge" with ⟨sB, mIdx⟩
            rw [hb2] at hok
            simp only [] at hok
            rcases hb3 : sB.appendBlock "if.else" with ⟨sC, eIdx⟩
            rw [hb3] at hok
            simp only [] at hok
            have hsA : sA = (s2.appendBlock "if.then").1 := by rw [hb1]
            have hsB : sB = (sA.appendBlock "if.merge").1 := by rw [hb2]
            have hsC : sC = (sB.appendBlock "if.else").1 := by rw [hb3]
            have htIdx : tIdx = s2.func.blocks.length := by
              have h0 : tIdx = (s2.appendBlock "if.then").2 := by rw [hb1]
              rw [h0, appendBlock_snd]
            have hmIdx : mIdx = s2.func.blocks.length + 1 := by
              have h0 : mIdx = (sA.appendBlock "if.merge").2 := by rw [hb2]
              rw [h0, appendBlock_snd, hsA, appendBlock_length]
            have heIdx : eIdx = s2.func.blocks.length + 1 + 1 := by
              have h0 : eIdx = (sB.appendBlock "if.else").2 := by rw [hb3]
              rw [h0, appendBlock_snd, hsB, appendBlock_length, hsA, appendBlock_length]
            have hc2lt : s2.cursor < s2.func.blocks.length := mem_Opens_lt p2.cur
            have hOS5 : Opens ((sC.setTerm (Terminator.cbr c2 tIdx eIdx)).positionAt tIdx)
                = (((Opens s2 ∪ {s2.func.blocks.length})
                    ∪ {s2.func.blocks.length + 1}) ∪ {s2.func.blocks.length + 1 + 1})
                  \ {s2.cursor} := by
              simp only [Opens_positionAt_simp, Opens_setTerm, hsC, Opens_appendBlock,
                hsB, hsA, appendBlock_length, appendBlock_cursor]
            have hcS5 : ((sC.setTerm (Terminator.cbr c2 tIdx eIdx)).positionAt tIdx).cursor
                = s2.func.blocks.length := by
              simp only [positionAt_cursor, htIdx]
            have hlS5 : ((sC.setTerm (Terminator.cbr c2 tIdx eIdx)).positionAt
                tIdx).func.blocks.length = s2.func.blocks.length + 1 + 1 + 1 := by
              simp only [positionAt_length, setTerm_length, hsC, appendBlock_length,
                hsB, hsA]
            have hpre5 : Pre ((sC.setTerm (Terminator.cbr c2 tIdx eIdx)).positionAt tIdx) := by
              show _ ∈ Opens _
              rw [hOS5]
              rw [show ((sC.setTerm (Terminator.cbr c2 tIdx eIdx)).positionAt tIdx).cursor
                = tIdx from rfl]
              rw [htIdx]
              refine ⟨Or.inl (Or.inl (Or.inr rfl)), fun hh => ?_⟩
              rw [Set.mem_singleton_iff] at hh
              omega
            obtain ⟨⟨tv, s6⟩, h6, hok⟩ := except_bind_ok hok
            simp only [] at hok
            have p6 := IHk tb hszt _ tv s6 hpre5 h6
            have hincl5 := p6.incl
            rw [hOS5, hcS5] at hincl5
            have hkeep5 := p6.keep
            rw [hOS5, hcS5] at hkeep5
            have hmono5 := p6.mono
            rw [hlS5] at hmono5
            have hcnew5 := p6.cnew
            rw [hcS5, hlS5] at hcnew5
            have hOS8 : Opens ((s6.setTerm (Terminator.br mIdx)).positionAt eIdx)
                = Opens s6 \ {s6.cursor} := by
              simp only [Opens_positionAt_simp, Opens_setTerm]
            have hcS8 : ((s6.setTerm (Terminator.br mIdx)).positionAt eIdx).cursor
                = s2.func.blocks.length + 1 + 1 := by
              simp only [positionAt_cursor, heIdx]
            have hlS8 : ((s6.setTerm (Terminator.br mIdx)).positionAt
                eIdx).func.blocks.length = s6.func.blocks.length := by
              simp only [positionAt_length, setTerm_length]
            have hpre8 : Pre ((s6.setTerm (Terminator.br mIdx)).positionAt eIdx) := by
              show _ ∈ Opens _
              rw [hOS8]
              rw [show ((s6.setTerm (Terminator.br mIdx)).positionAt eIdx).cursor
                = eIdx from rfl]
              rw [heIdx]
              refine ⟨hkeep5 ⟨⟨Or.inr rfl, fun hh => ?_⟩, fun hh => ?_⟩, fun hh => ?_⟩
              · rw [Set.mem_singleton_iff] at hh; omega
              · rw [Set.mem_singleton_iff] at hh; omega
              · rw [Set.mem_singleton_iff] at hh
                rcases hcnew5 with h | h <;> omega
            obtain ⟨⟨ev, s9⟩, h8, hok⟩ := except_bind_ok hok
            simp only [] at hok
            have p8 := IHk eb2 hsze _ ev s9 hpre8 h8
            obtain ⟨-, hs⟩ := ok_pair_eq hok
            subst hs
            have hincl8 := p8.incl
            rw [hOS8, hcS8] at hincl8
            have hkeep8 := p8.keep
            rw [hOS8, hcS8] at hkeep8
            have hmono8 := p8.mono
            rw [hlS8] at hmono8
            have hcnew8 := p8.cnew
            rw [hcS8, hlS8] at hcnew8
            have hOF : Opens ((s9.setTerm (Terminator.br mIdx)).positionAt mIdx)
                = Opens s9 \ {s9.cursor} := by
              simp only [Opens_positionAt_simp, Opens_setTerm]
            have hcF : ((s9.setTerm (Terminator.br mIdx)).positionAt mIdx).cursor
                = s2.func.blocks.length + 1 := by
              simp only [positionAt_cursor, hmIdx]
            have hlF : s9.func.blocks.length
                ≤ ((s9.setTerm (Terminator.br mIdx)).positionAt mIdx).func.blocks.length := by
              simp only [positionAt_length, setTerm_length, le_refl]
            exact (p1.trans p2).trans
              (post_two_visits rfl (le_refl _) (by omega) (by omega) (by omega)
                (by omega) (by omega) (by omega) (by omega) (by omega) p2.cur
                hincl5 hkeep5 hmono5 hcnew5 hincl8 hkeep8 hmono8 hcnew8 hOF hcF hlF)
          · rw [if_neg ht1] at hok
            by_cases ht2 : Operand.type c ≠ IRType.i1
            · rw [if_pos ht2] at hok
              simp at hok
            · rw [if_neg ht2] at hok
              simp only [except_pure_bind] at hok
              generalize hs2 : s1 = s2 at hok
              generalize hc2 : c = c2 at hok
              have p2 : Post s1 s2 := by
                rw [← hs2]
                exact post_refl p1.cur
              rcases hb1 : s2.appendBlock "if.then" with ⟨sA, tIdx⟩
              rw [hb1] at hok
              simp only [] at hok
              rcases hb2 : sA.appendBlock "if.merge" with ⟨sB, mIdx⟩
              rw [hb2] at hok
              simp only [] at hok
              rcases hb3 : sB.appendBlock "if.else" with ⟨sC, eIdx⟩
              rw [hb3] at hok
              simp only [] at hok
              have hsA : sA = (s2.appendBlock "if.then").1 := by rw [hb1]
              have hsB : sB = (sA.appendBlock "if.merge").1 := by rw [hb2]
              have hsC : sC = (sB.appendBlock "if.else").1 := by rw [hb3]
              have htIdx : tIdx = s2.func.blocks.length := by
                have h0 : tIdx = (s2.appendBlock "if.then").2 := by rw [hb1]
                rw [h0, appendBlock_snd]
              have hmIdx : mIdx = s2.func.blocks.length + 1 := by
                have h0 : mIdx = (sA.appendBlock "if.merge").2 := by rw [hb2]
                rw [h0, appendBlock_snd, hsA, appendBlock_length]
              have heIdx : eIdx = s2.func.blocks.length + 1 + 1 := by
                have h0 : eIdx = (sB.appendBlock "if.else").2 := by rw [hb3]
                rw [h0, appendBlock_snd, hsB, appendBlock_length, hsA, appendBlock_length]
              have hc2lt : s2.cursor < s2.func.blocks.length := mem_Opens_lt p2.cur
              have hOS5 : Opens ((sC.setTerm (Terminator.cbr c2 tIdx eIdx)).positionAt tIdx)
                  = (((Opens s2 ∪ {s2.func.blocks.length})
                      ∪ {s2.func.blocks.length + 1}) ∪ {s2.func.blocks.length + 1 + 1})
                    \ {s2.cursor} := by
                simp only [Opens_positionAt_simp, Opens_setTerm, hsC, Opens_appendBlock,
                  hsB, hsA, appendBlock_length, appendBlock_cursor]
              have hcS5 : ((sC.setTerm (Terminator.cbr c2 tIdx eIdx)).positionAt tIdx).cursor
                  = s2.func.blocks.length := by
                simp only [positionAt_cursor, htIdx]
              have hlS5 : ((sC.setTerm (Terminator.cbr c2 tIdx eIdx)).positionAt
                  tIdx).func.blocks.length = s2.func.blocks.length + 1 + 1 + 1 := by
                simp only [positionAt_length, setTerm_length, hsC, appendBlock_length,
                  hsB, hsA]
              have hpre5 : Pre ((sC.setTerm (Terminator.cbr c2 tIdx eIdx)).positionAt tIdx) := by
                show _ ∈ Opens _
                rw [hOS5]
                rw [show ((sC.setTerm (Terminator.cbr c2 tIdx eIdx)).positionAt tIdx).cursor
                  = tIdx from rfl]
                rw [htIdx]
                refine ⟨Or.inl (Or.inl (Or.inr rfl)), fun hh => ?_⟩
                rw [Set.mem_singleton_iff] at hh
                omega
              obtain ⟨⟨tv, s6⟩, h6, hok⟩ := except_bind_ok hok
              simp only [] at hok
              have p6 := IHk tb hszt _ tv s6 hpre5 h6
              have hincl5 := p6.incl
              rw [hOS5, hcS5] at hincl5
              have hkeep5 := p6.keep
              rw [hOS5, hcS5] at hkeep5
              have hmono5 := p6.mono
              rw [hlS5] at hmono5
              have hcnew5 := p6.cnew
              rw [hcS5, hlS5] at hcnew5
              have hOS8 : Opens ((s6.setTerm (Terminator.br mIdx)).positionAt eIdx)
                  = Opens s6 \ {s6.cursor} := by
                simp only [Opens_positionAt_simp, Opens_setTerm]
              have hcS8 : ((s6.setTerm (Terminator.br mIdx)).positionAt eIdx).cursor
                  = s2.func.blocks.length + 1 + 1 := by
                simp only [positionAt_cursor, heIdx]
              have hlS8 : ((s6.setTerm (Terminator.br mIdx)).positionAt
                  eIdx).func.blocks.length = s6.func.blocks.length := by
                simp only [positionAt_length, setTerm_length]
              have hpre8 : Pre ((s6.setTerm (Terminator.br mIdx)).positionAt eIdx) := by
                show _ ∈ Opens _
                rw [hOS8]
                rw [show ((s6.setTerm (Terminator.br mIdx)).positionAt eIdx).cursor
                  = eIdx from rfl]
                rw [heIdx]
                refine ⟨hkeep5 ⟨⟨Or.inr rfl, fun hh => ?_⟩, fun hh => ?_⟩, fun hh => ?_⟩
                · rw [Set.mem_singleton_iff] at hh; omega
                · rw [Set.mem_singleton_iff] at hh; omega
                · rw [Set.mem_singleton_iff] at hh
                  rcases hcnew5 with h | h <;> omega
              obtain ⟨⟨ev, s9⟩, h8, hok⟩ := except_bind_ok hok
              simp only [] at hok
              have p8 := IHk eb2 hsze _ ev s9 hpre8 h8
              obtain ⟨-, hs⟩ := ok_pair_eq hok
              subst hs
              have hincl8 := p8.incl
              rw [hOS8, hcS8] at hincl8
              have hkeep8 := p8.keep
              rw [hOS8, hcS8] at hkeep8
              have hmono8 := p8.mono
              rw [hlS8] at hmono8
              have hcnew8 := p8.cnew
              rw [hcS8, hlS8] at hcnew8
              have hOF : Opens ((s9.setTerm (Terminator.br mIdx)).positionAt mIdx)
                  = Opens s9 \ {s9.cursor} := by
                simp only [Opens_positionAt_simp, Opens_setTerm]
              have hcF : ((s9.setTerm (Terminator.br mIdx)).positionAt mIdx).cursor
                  = s2.func.blocks.length + 1 := by
                simp only [positionAt_cursor, hmIdx]
              have hlF : s9.func.blocks.length
                  ≤ ((s9.setTerm (Terminator.br mIdx)).positionAt mIdx).func.blocks.length := by
                simp only [positionAt_length, setTerm_length, le_refl]
              exact (p1.trans p2).trans
                (post_two_visits rfl (le_refl _) (by omega) (by omega) (by omega)
                  (by omega) (by omega) (by omega) (by omega) (by omega) p2.cur
                  hincl5 hkeep5 hmono5 hcnew5 hincl8 hkeep8 hmono8 hcnew8 hOF hcF hlF)
    | ForStmt cond body =>
      have hszc : sizeOf cond ≤ k := by simp_arith at hn; omega
      have hszb : sizeOf body ≤ k := by simp_arith at hn; omega
      rw [cgVisit_ForStmt] at hok
      rcases hb1 : s.appendBlock "for.header" with ⟨sA, hIdx⟩
      rw [hb1] at hok
      simp only [] at hok
      rcases hb2 : sA.appendBlock "for.body" with ⟨sB, bIdx⟩
      rw [hb2] at hok
      simp only [] at hok
      rcases hb3 : sB.appendBlock "for.after" with ⟨sC, aIdx⟩
      rw [hb3] at hok
      simp only [] at hok
      have hsA : sA = (s.appendBlock "for.header").1 := by rw [hb1]
      have hsB : sB = (sA.appendBlock "for.body").1 := by rw [hb2]
      have hsC : sC = (sB.appendBlock "for.after").1 := by rw [hb3]
      have hhIdx : hIdx = s.func.blocks.length := by
        have h0 : hIdx = (s.appendBlock "for.header").2 := by rw [hb1]
        rw [h0, appendBlock_snd]
      have hbIdx : bIdx = s.func.blocks.length + 1 := by
        have h0 : bIdx = (sA.appendBlock "for.body").2 := by rw [hb2]
        rw [h0, appendBlock_snd, hsA, appendBlock_length]
      have haIdx : aIdx = s.func.blocks.length + 1 + 1 := by
        have h0 : aIdx = (sB.appendBlock "for.after").2 := by rw [hb3]
        rw [h0, appendBlock_snd, hsB, appendBlock_length, hsA, appendBlock_length]
      have hclt : s.cursor < s.func.blocks.length := mem_Opens_lt hpre
      have hOS4 : Opens ((sC.setTerm (Terminator.br hIdx)).positionAt hIdx)
          = (((Opens s ∪ {s.func.blocks.length}) ∪ {s.func.blocks.length + 1})
              ∪ {s.func.blocks.length + 1 + 1}) \ {s.cursor} := by
        simp only [Opens_positionAt_simp, Opens_setTerm, hsC, Opens_appendBlock,
          hsB, hsA, appendBlock_length, appendBlock_cursor]
      have hcS4 : ((sC.setTerm (Terminator.br hIdx)).positionAt hIdx).cursor
          = s.func.blocks.length := by
        simp only [positionAt_cursor, hhIdx]
      have hlS4 : ((sC.setTerm (Terminator.br hIdx)).positionAt
          hIdx).func.blocks.length = s.func.blocks.length + 1 + 1 + 1 := by
        simp only [positionAt_length, setTerm_length, hsC, appendBlock_length,
          hsB, hsA]
      have hpre4 : Pre ((sC.setTerm (Terminator.br hIdx)).positionAt hIdx) := by
        show _ ∈ Opens _
        rw [hOS4]
        rw [show ((sC.setTerm (Terminator.br hIdx)).positionAt hIdx).cursor
          = hIdx from rfl]
        rw [hhIdx]
        refine ⟨Or.inl (Or.inl (Or.inr rfl)), fun hh => ?_⟩
        rw [Set.mem_singleton_iff] at hh
        omega
      obtain ⟨⟨cv, s5⟩, h5, hok⟩ := except_bind_ok hok
      simp only [] at hok
      have p5 := IHk cond hszc _ cv s5 hpre4 h5
      cases cv with
      | none => simp at hok
      | some c =>
        simp only [reqVal_some, except_ok_bind] at hok
        rcases hnorm : normalizeBool s5 c with ⟨s6, c6⟩
        rw [hnorm] at hok
        simp only [] at hok
        have p6 := post_normalizeBool hnorm p5.cur
        have p56 := p5.trans p6
        have hincl5 := p56.incl
        rw [hOS4, hcS4] at hincl5
        have hkeep5 := p56.keep
        rw [hOS4, hcS4] at hkeep5
        have hmono5 := p56.mono
        rw [hlS4] at hmono5
        have hcnew5 := p56.cnew
        rw [hcS4, hlS4] at hcnew5
        have hOS7 : Opens ((s6.setTerm (Terminator.cbr c6 bIdx aIdx)).positionAt bIdx)
            = Opens s6 \ {s6.cursor} := by
          simp only [Opens_positionAt_simp, Opens_setTerm]
        have hcS7 : ((s6.setTerm (Terminator.cbr c6 bIdx aIdx)).positionAt bIdx).cursor
            = s.func.blocks.length + 1 := by
          simp only [positionAt_cursor, hbIdx]
        have hlS7 : ((s6.setTerm (Terminator.cbr c6 bIdx aIdx)).positionAt
            bIdx).func.blocks.length = s6.func.blocks.length := by
          simp only [positionAt_length, setTerm_length]
        have hpre7 : Pre ((s6.setTerm (Terminator.cbr c6 bIdx aIdx)).positionAt bIdx) := by
          show _ ∈ Opens _
          rw [hOS7]
          rw [show ((s6.setTerm (Terminator.cbr c6 bIdx aIdx)).positionAt bIdx).cursor
            = bIdx from rfl]
          rw [hbIdx]
          refine ⟨hkeep5 ⟨⟨Or.inl (Or.inr rfl), fun hh => ?_⟩, fun hh => ?_⟩,
            fun hh => ?_⟩
          · rw [Set.mem_singleton_iff] at hh; omega
          · rw [Set.mem_singleton_iff] at hh; omega
          · rw [Set.mem_singleton_iff] at hh
            rcases hcnew5 with h | h <;> omega
        obtain ⟨⟨bv, s8⟩, h8, hok⟩ := except_bind_ok hok
        simp only [] at hok
        have p8 := IHk body hszb _ bv s8 hpre7 h8
        obtain ⟨-, hs⟩ := ok_pair_eq hok
        subst hs
        have hincl8 := p8.incl
        rw [hOS7, hcS7] at hincl8
        have hkeep8 := p8.keep
        rw [hOS7, hcS7] at hkeep8
        have hmono8 := p8.mono
        rw [hlS7] at hmono8
        have hcnew8 := p8.cnew
        rw [hcS7, hlS7] at hcnew8
        have hOF : Opens ((s8.setTerm (Terminator.br hIdx)).positionAt aIdx)
            = Opens s8 \ {s8.cursor} := by
          simp only [Opens_positionAt_simp, Opens_setTerm]
        have hcF : ((s8.setTerm (Terminator.br hIdx)).positionAt aIdx).cursor
            = s.func.blocks.length + 1 + 1 := by
          simp only [positionAt_cursor, haIdx]
        have hlF : s8.func.blocks.length
            ≤ ((s8.setTerm (Terminator.br hIdx)).positionAt aIdx).func.blocks.length := by
          simp only [positionAt_length, setTerm_length, le_refl]
        exact post_two_visits rfl (le_refl _) (by omega) (by omega) (by omega)
          (by omega) (by omega) (by omega) (by omega) (by omega) hpre
          hincl5 hkeep5 hmono5 hcnew5 hincl8 hkeep8 hmono8 hcnew8 hOF hcF hlF
    | Call fn args =>
      cases args with
      | nil =>
        rw [cgVisit_Call_nil] at hok
        split at hok
        · simp at hok
        · simp at hok
      | cons arg rest =>
        have hsza : sizeOf arg ≤ k := by simp_arith at hn; omega
        rw [cgVisit_Call_cons] at hok
        by_cases hfn : (fn = "print" ∨ fn = "println")
        · rw [if_pos hfn] at hok
          obtain ⟨⟨v0, s1⟩, h1, hok⟩ := except_bind_ok hok
          simp only [] at hok
          have p1 := IHk arg hsza s v0 s1 hpre h1
          cases arg with
          | Program f => simp at hok
          | Function nm bd => simp at hok
          | Block ss => simp at hok
          | VarDecl nm tn ex => simp at hok
          | Assign nm ex => simp at hok
          | IfStmt cc tt ee => simp at hok
          | ForStmt cc bb => simp at hok
          | Call f2 a2 => simp at hok
          | Literal lv =>
            cases lv with
            | int n => simp at hok
            | bool b => simp at hok
            | str v =>
              simp only [] at hok
              rcases hg : s1.addGlobal "fmt"
                  (encodeUTF8 (if fn = "println" then v ++ "\n" else v) ++ [0])
                  with ⟨s2, gname⟩
              rw [hg] at hok
              simp only [] at hok
              rcases hf1 : s2.fresh with ⟨s3, rf⟩
              rw [hf1] at hok
              simp only [] at hok
              rcases hf2 : (s3.emit (Instr.bitcast rf gname)).fresh with ⟨s5, rc⟩
              rw [hf2] at hok
              simp only [] at hok
              obtain ⟨-, hs⟩ := ok_pair_eq hok
              subst hs
              have hs2 : s2 = (s1.addGlobal "fmt"
                  (encodeUTF8 (if fn = "println" then v ++ "\n" else v) ++ [0])).1 := by
                rw [hg]
              have pA : Post s1 s2 :=
                post_of_opens (by rw [hs2]; simp) (by rw [hs2]; simp)
                  (by rw [hs2]; simp) p1.cur
              have pB : Post s2 (s3.emit (Instr.bitcast rf gname)) :=
                post_fresh_emit hf1 _ pA.cur
              have pC := post_fresh_emit hf2 (Instr.call rc "printf"
                [Operand.reg rf IRType.ptr]) pB.cur
              exact p1.trans (pA.trans (pB.trans pC))
          | Identifier nm =>
            simp only [] at hok
            rcases hg : s1.addGlobal "fmt"
                (encodeUTF8 (if fn = "println" then "%d\n" else "%d") ++ [0]) with ⟨s2, gname⟩
            rw [hg] at hok
            simp only [] at hok
            rcases hf1 : s2.fresh with ⟨s3, rf⟩
            rw [hf1] at hok
            simp only [] at hok
            obtain ⟨⟨v2, s4⟩, h4, hok⟩ := except_bind_ok hok
            simp only [] at hok
            have hs2 : s2 = (s1.addGlobal "fmt"
                (encodeUTF8 (if fn = "println" then "%d\n" else "%d") ++ [0])).1 := by rw [hg]
            have pA : Post s1 s2 :=
              post_of_opens (by rw [hs2]; simp) (by rw [hs2]; simp)
                (by rw [hs2]; simp) p1.cur
            have pB : Post s2 (s3.emit (Instr.bitcast rf gname)) :=
              post_fresh_emit hf1 _ pA.cur
            have p4 := IHk _ hsza _ v2 s4 pB.cur h4
            cases v2 with
            | none => simp at hok
            | some v =>
              simp only [reqVal_some, except_ok_bind] at hok
              rcases hf2 : s4.fresh with ⟨s5, rz⟩
              rw [hf2] at hok
              simp only [] at hok
              rcases hf3 : (s5.emit (Instr.zext rz v IRType.i64)).fresh with ⟨s6, rc⟩
              rw [hf3] at hok
              simp only [] at hok
              obtain ⟨-, hs⟩ := ok_pair_eq hok
              subst hs
              have pC : Post s4 (s5.emit (Instr.zext rz v IRType.i64)) :=
                post_fresh_emit hf2 _ p4.cur
              have pD := post_fresh_emit hf3 (Instr.call rc "printf"
                [Operand.reg rf IRType.ptr, Operand.reg rz IRType.i64]) pC.cur
              exact p1.trans (pA.trans (pB.trans (p4.trans (pC.trans pD))))
          | BinOp l o r =>
            simp only [] at hok
            rcases hg : s1.addGlobal "fmt"
                (encodeUTF8 (if fn = "println" then "%d\n" else "%d") ++ [0]) with ⟨s2, gname⟩
            rw [hg] at hok
            simp only [] at hok
            rcases hf1 : s2.fresh with ⟨s3, rf⟩
            rw [hf1] at hok
            simp only [] at hok
            obtain ⟨⟨v2, s4⟩, h4, hok⟩ := except_bind_ok hok
            simp only [] at hok
            have hs2 : s2 = (s1.addGlobal "fmt"
                (encodeUTF8 (if fn = "println" then "%d\n" else "%d") ++ [0])).1 := by rw [hg]
            have pA : Post s1 s2 :=
              post_of_opens (by rw [hs2]; simp) (by rw [hs2]; simp)
                (by rw [hs2]; simp) p1.cur
            have pB : Post s2 (s3.emit (Instr.bitcast rf gname)) :=
              post_fresh_emit hf1 _ pA.cur
            have p4 := IHk _ hsza _ v2 s4 pB.cur h4
            cases v2 with
            | none => simp at hok
            | some v =>
              simp only [reqVal_some, except_ok_bind] at hok
              rcases hf2 : s4.fresh with ⟨s5, rz⟩
              rw [hf2] at hok
              simp only [] at hok
              rcases hf3 : (s5.emit (Instr.zext rz v IRType.i64)).fresh with ⟨s6, rc⟩
              rw [hf3] at hok
              simp only [] at hok
              obtain ⟨-, hs⟩ := ok_pair_eq hok
              subst hs
              have pC : Post s4 (s5.emit (Instr.zext rz v IRType.i64)) :=
                post_fresh_emit hf2 _ p4.cur
              have pD := post_fresh_emit hf3 (Instr.call rc "printf"
                [Operand.reg rf IRType.ptr, Operand.reg rz IRType.i64]) pC.cur
              exact p1.trans (pA.trans (pB.trans (p4.trans (pC.trans pD))))
          | UnaryOp o e =>
            simp only [] at hok
            rcases hg : s1.addGlobal "fmt"
                (encodeUTF8 (if fn = "println" then "%d\n" else "%d") ++ [0]) with ⟨s2, gname⟩
            rw [hg] at hok
            simp only [] at hok
            rcases hf1 : s2.fresh with ⟨s3, rf⟩
            rw [hf1] at hok
            simp only [] at hok
            obtain ⟨⟨v2, s4⟩, h4, hok⟩ := except_bind_ok hok
            simp only [] at hok
            have hs2 : s2 = (s1.addGlobal "fmt"
                (encodeUTF8 (if fn = "println" then "%d\n" else "%d") ++ [0])).1 := by rw [hg]
            have pA : Post s1 s2 :=
              post_of_opens (by rw [hs2]; simp) (by rw [hs2]; simp)
                (by rw [hs2]; simp) p1.cur
            have pB : Post s2 (s3.emit (Instr.bitcast rf gname)) :=
              post_fresh_emit hf1 _ pA.cur
            have p4 := IHk _ hsza _ v2 s4 pB.cur h4
            cases v2 with
            | none => simp at hok
            | some v =>
              simp only [reqVal_some, except_ok_bind] at hok
              rcases hf2 : s4.fresh with ⟨s5, rz⟩
              rw [hf2] at hok
              simp only [] at hok
              rcases hf3 : (s5.emit (Instr.zext rz v IRType.i64)).fresh with ⟨s6, rc⟩
              rw [hf3] at hok
              simp only [] at hok
              obtain ⟨-, hs⟩ := ok_pair_eq hok
              subst hs
              have pC : Post s4 (s5.emit (Instr.zext rz v IRType.i64)) :=
                post_fresh_emit hf2 _ p4.cur
              have pD := post_fresh_emit hf3 (Instr.call rc "printf"
                [Operand.reg rf IRType.ptr, Operand.reg rz IRType.i64]) pC.cur
              exact p1.trans (pA.trans (pB.trans (p4.trans (pC.trans pD))))
        · rw [if_neg hfn] at hok
          simp at hok

/-! ## Claims -/

/-- C3 counterexample.  The claim says that an `==` whose operand types
are resolvable and differ (here `int == bool`, both literals, so both
types resolve) makes the analyzer record a diagnostic.  It records none:
in `visit_BinOp` the branch for `<,<=,>,>=,==` returns for `==` without
any check, and the later generic-equality branch is unreachable. -/
theorem c3_counterexample :
    (semAnalyze (.Program (.Function "main" (.Block
      [.BinOp (.Literal (.int 1)) "==" (.Literal (.bool true))])))).2.errors = [] ∧
    infer_type SymbolTable.init (.Literal (.int 1)) = some "int" ∧
    infer_type SymbolTable.init (.Literal (.bool true)) = some "bool" := by
  refine ⟨?_, rfl, rfl⟩
  rfl

/-- C3 amended: for every `==` expression the analyzer adds no diagnostic
of its own — analyzing `l == r` is exactly analyzing `l` then `r` (the
type-mismatch check for `==` is dead code) — and the inferred type of the
expression is `bool` regardless of the operand types. -/
theorem c3_theorem (s : SemState) (l r : Node) (st : SymbolTable) :
    semVisit s (.BinOp l "==" r) = semVisit (semVisit s l) r ∧
    infer_type st (.BinOp l "==" r) = some "bool" :=
  ⟨rfl, rfl⟩

/-- C4 counterexample.  The claim says the right-hand side of an
assignment to an undeclared variable is still visited, so errors inside it
are also reported.  Assigning undeclared `z` to undeclared `y` yields
exactly the one diagnostic about `y`: `visit_Assign` returns right after
recording it, never visiting the right-hand side. -/
theorem c4_counterexample :
    (semAnalyze (.Program (.Function "main" (.Block
      [.Assign "y" (.Identifier "z")])))).2.errors
      = ["Variable 'y' no declarada"] := by
  rfl

/-- C4 amended: for every assignment whose target is not declared in any
enclosing scope, the analyzer records the undeclared-variable diagnostic
and returns immediately, leaving the right-hand expression unvisited (so
errors inside it are not reported). -/
theorem c4_theorem (s : SemState) (n : String) (e : Node)
    (h : s.symbol_table.lookup n = none) :
    semVisit s (.Assign n e) = s.addError ("Variable '" ++ n ++ "' no declarada") := by
  have hunfold : semVisit s (.Assign n e)
      = (match s.symbol_table.lookup n with
         | none => s.addError ("Variable '" ++ n ++ "' no declarada")
         | some var_type =>
           let s := semVisit s e
           match infer_type s.symbol_table e with
           | none => s
           | some t =>
             if t ≠ var_type then
               s.addError ("Tipo incompatible en asignación: '" ++ n ++ "' es " ++
                 var_type ++ ", pero se asigna " ++ t)
             else s) := rfl
  rw [hunfold, h]

/-- C4 witness: the amended theorem at the counterexample's input. -/
theorem c4_witness :
    semVisit SemState.init (.Assign "y" (.Identifier "z"))
      = SemState.init.addError ("Variable 'y' no declarada") :=
  c4_theorem SemState.init "y" (.Identifier "z") rfl

/-- C6: redeclaration is rejected exactly in the same scope, accepted in
a strictly nested scope, where it shadows the outer binding until the
nested scope is exited.  `st1` is any table in which a first declaration
of `n` just succeeded.  (a) a second `declare` in the same scope fails,
and (b) `visit_VarDecl` then records exactly the redeclaration
diagnostic; (c) after `enter_scope` (what `visit_Block` pushes) the same
declaration succeeds, and (d) the analyzer records nothing for it;
(e) lookups now see the inner binding; (f) after `exit_scope` the outer
binding is back. -/
theorem c6_theorem (st : SymbolTable) (n t1 t2 : String) (st1 : SymbolTable)
    (hv : t2 = "int" ∨ t2 = "bool")
    (h : st.declare n t1 = (st1, true)) (s : SemState)
    (hs : s.symbol_table = st1) :
    (st1.declare n t2).2 = false ∧
    semVisit s (.VarDecl n t2 none)
      = s.addError ("Variable '" ++ n ++ "' ya fue declarada en este ámbito") ∧
    (st1.enter_scope.declare n t2).2 = true ∧
    semVisit { s with symbol_table := s.symbol_table.enter_scope }
        (.VarDecl n t2 none)
      = { s with symbol_table := (s.symbol_table.enter_scope.declare n t2).1 } ∧
    (st1.enter_scope.declare n t2).1.lookup n = some t2 ∧
    (st1.enter_scope.declare n t2).1.exit_scope.lookup n = some t1 := by
  have hbody : ∀ (s' : SemState),
      semVisit s' (.VarDecl n t2 none)
        = (if ¬ (t2 = "int" ∨ t2 = "bool") then
            s'.addError ("Tipo desconocido '" ++ t2 ++ "'")
          else
            let (st', ok) := s'.symbol_table.declare n t2
            if ¬ ok then
              s'.addError ("Variable '" ++ n ++ "' ya fue declarada en este ámbito")
            else
              { s' with symbol_table := st' }) := fun _ => rfl
  obtain ⟨scopes⟩ := st
  match scopes with
  | [] =>
    exact absurd (congrArg Prod.snd h) (by simp [SymbolTable.declare])
  | sc :: rest =>
    rcases hmem : List.lookup n sc with _ | tOld
    · -- the first declaration succeeded because `n` was absent
      rw [SymbolTable.declare] at h
      dsimp only at h
      rw [hmem] at h
      simp only [Option.isSome_none, Bool.false_eq_true, if_false] at h
      obtain ⟨hst1, -⟩ := Prod.mk.injEq .. ▸ h
      subst hst1
      refine ⟨?_, ?_, ?_, ?_, ?_, ?_⟩
      · rw [SymbolTable.declare]
        simp [List.lookup]
      · rw [hbody, if_neg (by tauto), hs]
        have hd : SymbolTable.declare ⟨((n, t1) :: sc) :: rest⟩ n t2
            = (⟨((n, t1) :: sc) :: rest⟩, false) := by
          rw [SymbolTable.declare]
          simp [List.lookup]
        rw [hd]
        simp
      · rw [SymbolTable.enter_scope, SymbolTable.declare]
        simp
      · rw [hbody, if_neg (by tauto), hs]
        have hd : SymbolTable.declare
            (SymbolTable.enter_scope ⟨((n, t1) :: sc) :: rest⟩) n t2
            = (⟨[(n, t2)] :: ((n, t1) :: sc) :: rest⟩, true) := by
          rw [SymbolTable.enter_scope, SymbolTable.declare]
          simp
        rw [hd]
        simp
      · have hd : SymbolTable.declare
            (SymbolTable.enter_scope ⟨((n, t1) :: sc) :: rest⟩) n t2
            = (⟨[(n, t2)] :: ((n, t1) :: sc) :: rest⟩, true) := by
          rw [SymbolTable.enter_scope, SymbolTable.declare]
          simp
        rw [hd]
        rw [SymbolTable.lookup]
        simp [SymbolTable.lookup.go, List.lookup]
      · have hd : SymbolTable.declare
            (SymbolTable.enter_scope ⟨((n, t1) :: sc) :: rest⟩) n t2
            = (⟨[(n, t2)] :: ((n, t1) :: sc) :: rest⟩, true) := by
          rw [SymbolTable.enter_scope, SymbolTable.declare]
          simp
        rw [hd]
        rw [SymbolTable.exit_scope, SymbolTable.lookup]
        simp [SymbolTable.lookup.go, List.lookup]
    · -- `n` was present, so the first declaration cannot have succeeded
      rw [SymbolTable.declare] at h
      dsimp only at h
      rw [hmem] at h
      simp at h

/-- C6 witness: the theorem at a concrete table — `x : int` declared once
in the function scope, then redeclared as `bool`. -/
theorem c6_witness :
    (SymbolTable.declare ⟨[[("x", "int")]]⟩ "x" "bool").2 = false ∧
    semVisit ⟨⟨[[("x", "int")]]⟩, []⟩ (.VarDecl "x" "bool" none)
      = SemState.addError ⟨⟨[[("x", "int")]]⟩, []⟩
          ("Variable '" ++ "x" ++ "' ya fue declarada en este ámbito") ∧
    ((SymbolTable.enter_scope ⟨[[("x", "int")]]⟩).declare "x" "bool").2 = true ∧
    semVisit { (⟨⟨[[("x", "int")]]⟩, []⟩ : SemState) with
        symbol_table := SymbolTable.enter_scope ⟨[[("x", "int")]]⟩ }
        (.VarDecl "x" "bool" none)
      = { (⟨⟨[[("x", "int")]]⟩, []⟩ : SemState) with
          symbol_table :=
            ((SymbolTable.enter_scope ⟨[[("x", "int")]]⟩).declare "x" "bool").1 } ∧
    ((SymbolTable.enter_scope ⟨[[("x", "int")]]⟩).declare "x" "bool").1.lookup "x"
      = some "bool" ∧
    (((SymbolTable.enter_scope ⟨[[("x", "int")]]⟩).declare "x"
        "bool").1.exit_scope).lookup "x" = some "int" :=
  c6_theorem SymbolTable.init "x" "int" "bool" ⟨[[("x", "int")]]⟩
    (Or.inr rfl) rfl ⟨⟨[[("x", "int")]]⟩, []⟩ rfl

/-- C7: analyzing `var x bool = 1` (wrapped in the `main` function the
grammar requires) fails with exactly one diagnostic, the int/bool
mismatch between declared type and initializer type. -/
theorem c7_theorem :
    (semAnalyze (.Program (.Function "main" (.Block
      [.VarDecl "x" "bool" (some (.Literal (.int 1)))])))).1 = false ∧
    (semAnalyze (.Program (.Function "main" (.Block
      [.VarDecl "x" "bool" (some (.Literal (.int 1)))])))).2.errors
      = ["Tipo incompatible en declaración: esperado bool, obtenido int"] := by
  exact ⟨rfl, rfl⟩

/-- C8: every integer literal of one or more digits is accepted by
`t_NUMBER` with its exact decimal value `v` (Python `int()`, arbitrary
precision, no overflow check raised anywhere), `visit_Literal` passes `v`
unchanged into the generated `i32` constant (`ir.Constant(INT_TYPE, v)`),
and the 32-bit signed value that constant denotes on the native target is
exactly `v` reduced modulo `2^32` and reinterpreted signed — native
wraparound, no error at any stage. -/
theorem c8_theorem (s : String) (st : CGState)
    (h1 : s ≠ "") (h2 : s.data.all Char.isDigit) :
    t_NUMBER s = some ((decimalValue s : Int)) ∧
    cgVisit st (.Literal (.int (decimalValue s)))
      = .ok (some (.const .i32 (decimalValue s)), st) ∧
    toSigned32 (decimalValue s)
      = toSigned32 ((decimalValue s : Int) % 4294967296) := by
  refine ⟨?_, rfl, ?_⟩
  · rw [t_NUMBER, if_pos ⟨h1, h2⟩]
  · rw [toSigned32, toSigned32, Int.emod_emod_of_dvd _ dvd_rfl]

/-- C8 witness: the literal `4294967296` (one past the unsigned 32-bit
range) lexes, generates, and wraps to `0`. -/
theorem c8_witness :
    t_NUMBER "4294967296" = some ((decimalValue "4294967296" : Int)) ∧
    cgVisit cgInit (.Literal (.int (decimalValue "4294967296")))
      = .ok (some (.const .i32 (decimalValue "4294967296")), cgInit) ∧
    toSigned32 (decimalValue "4294967296")
      = toSigned32 ((decimalValue "4294967296" : Int) % 4294967296) :=
  c8_theorem "4294967296" cgInit (by decide) (by decide)

/-- The program of C10: `func main() { var x int = 0  { var x int = 1 }
x = x }` — an outer `x`, a shadowing inner `x` inside a nested block, and
a load+store of `x` after the block, back in the outer scope. -/
def c10prog : Node := .Program (.Function "main" (.Block
  [.VarDecl "x" "int" (some (.Literal (.int 0))),
   .Block [.VarDecl "x" "int" (some (.Literal (.int 1)))],
   .Assign "x" (.Identifier "x")]))

/-- C10: the generator's `self.vars` is one flat dict with no scope
entry/exit (`visit_Block` only iterates).  The inner declaration
overwrites the outer slot 0 with slot 1, so after the nested block both
the load and the store of `x` (`.load 2 1 "x"` / `.store (.reg 2 .i32) 1`)
target slot 1, the inner alloca, not the outer slot 0; and the slot table
still maps `x` to slot 1 when generation ends. -/
theorem c10_theorem :
    (cgCompile c10prog).toOption.map
        (fun s => (s.func.blocks, s.vars.lookup "x"))
      = some ([⟨"entry",
          [.alloca 0 .i32 "x", .store (.const .i32 0) 0,
           .alloca 1 .i32 "x", .store (.const .i32 1) 1,
           .load 2 1 "x", .store (.reg 2 .i32) 1],
          some (.ret (.const .i32 0))⟩],
         some (1, .i32)) := rfl

/-- The failing input of C2: `a && b` with `a`, `b` declared booleans,
its value stored into `c`. -/
def c2prog : Node := .Program (.Function "main" (.Block
  [.VarDecl "a" "bool" (some (.Literal (.bool true))),
   .VarDecl "b" "bool" (some (.Literal (.bool true))),
   .VarDecl "c" "bool" (some (.BinOp (.Identifier "a") "&&" (.Identifier "b")))]))

/-- C2, evaluated at the failing input.  `visit_BinOp` computes
`left = self.visit(node.left)` and `right = self.visit(node.right)`
eagerly before dispatching on the operator, so the predecessor (`entry`)
block contains `.load 4 1 "b"` — the right operand's instruction — before
the conditional branch, and the left operand is loaded twice (`.load 3 0`
eagerly and `.load 5 0` again inside the `&&` branch); only the re-loads
feed the short-circuit structure (`and.right` re-evaluates `b` as
`.load 6 1`).  The claim that operand instructions are emitted only
inside the short-circuit block structure is therefore false of the code:
the right operand executes unconditionally at runtime. -/
theorem c2_theorem :
    (cgCompile c2prog).toOption.map (fun s => s.func.blocks)
      = some [⟨"entry",
          [.alloca 0 .i1 "a", .store (.const .i1 1) 0,
           .alloca 1 .i1 "b", .store (.const .i1 1) 1,
           .alloca 2 .i1 "c",
           .load 3 0 "a", .load 4 1 "b", .load 5 0 "a"],
          some (.cbr (.reg 5 .i1) 2 1)⟩,
         ⟨"and.end", [], some (.br 3)⟩,
         ⟨"and.right", [.load 6 1 "b"], some (.br 3)⟩,
         ⟨"and.merge",
          [.phi 7 .i1 [(.reg 6 .i1, 2), (.const .i1 0, 1)],
           .store (.reg 7 .i1) 2],
          some (.ret (.const .i32 0))⟩] := rfl

/-- The program of C5: `func main() { if 1+1 { println(1) } }`. -/
def c5prog : Node := .Program (.Function "main" (.Block
  [.IfStmt (.BinOp (.Literal (.int 1)) "+" (.Literal (.int 1)))
    (.Block [.Call "println" [.Literal (.int 1)]]) none]))

/-- The same program with the call removed: `func main() { if 1+1 { } }`. -/
def c5prog_nocall : Node := .Program (.Function "main" (.Block
  [.IfStmt (.BinOp (.Literal (.int 1)) "+" (.Literal (.int 1)))
    (.Block []) none]))

/-- C5 counterexample: the program does not compile through the full
pipeline — semantic analysis fails (so `main.py` never reaches
generation), and generation, run directly on the AST, also raises a
fatal error on `println(1)`. -/
theorem c5_counterexample :
    (semAnalyze c5prog).1 = false ∧
    cgCompile c5prog = .error "Tipo no soportado en print" := ⟨rfl, rfl⟩

/-- C5 amended: analysis rejects `if 1+1 {...}` with exactly the
diagnostic that an `if` condition must be `bool` (it inferred `int`), so
the pipeline stops before generation; generation run directly fails
fatally on `println(1)` (integer-literal print argument).  Only the
condition half of the claim matches the generator: with the call removed,
the `int` condition is accepted via zero-normalization (`icmp != 0`
feeding the conditional branch). -/
theorem c5_theorem :
    (semAnalyze c5prog).2.errors = ["Condición de 'if' debe ser bool, no int"] ∧
    cgCompile c5prog = .error "Tipo no soportado en print" ∧
    (cgCompile c5prog_nocall).toOption.map (fun s => s.func.blocks)
      = some [⟨"entry",
          [.add 0 (.const .i32 1) (.const .i32 1),
           .icmp 1 "!=" (.reg 0 .i32) (.const .i32 0)],
          some (.cbr (.reg 1 .i1) 1 2)⟩,
         ⟨"if.then", [], some (.br 2)⟩,
         ⟨"if.merge", [], some (.ret (.const .i32 0))⟩] := ⟨rfl, rfl, rfl⟩

/-- The program of C1's counterexample: `func main() { println(1) }`. -/
def c1prog : Node := .Program (.Function "main" (.Block
  [.Call "println" [.Literal (.int 1)]]))

/-- C1 counterexample: `println(1)` passes semantic analysis with zero
diagnostics (`visit_Call` checks nothing about arguments), yet code
generation raises the fatal error of `visit_Call`'s final `else` branch —
an integer literal is neither a string literal nor an
identifier/`BinOp`/`UnaryOp`.  Zero diagnostics therefore do not imply
generation succeeds. -/
theorem c1_counterexample :
    (semAnalyze c1prog).2.errors = [] ∧
    (semAnalyze c1prog).1 = true ∧
    cgCompile c1prog = .error "Tipo no soportado en print" := ⟨rfl, rfl, rfl⟩

/-- A well-formed program for the C1 witness:
`func main() { var x int = 1; if x == 1 { println(x) } }`. -/
def c1wprog : Node := .Program (.Function "main" (.Block
  [ .VarDecl "x" "int" (some (.Literal (.int 1)))
  , .IfStmt (.BinOp (.Identifier "x") "==" (.Literal (.int 1)))
      (.Block [.Call "println" [.Identifier "x"]]) none ]))

/-- C1 (amended): whenever code generation succeeds — which zero semantic
diagnostics do not guarantee, see the counterexample — every basic block
of the generated function carries a terminator.  Proved from the builder
invariant `cgVisit_post`: a visit closes only the block the builder sits
on, keeps every other open block open, and leaves the builder on an open
block; `compile` then terminates the last open block with `ret i32 0`. -/
theorem c1_theorem (prog : Node) (m : CGState)
    (h : cgCompile prog = Except.ok m) :
    ∀ b ∈ m.func.blocks, b.term.isSome := by
  cases prog with
  | Function nm bd => simp [cgCompile] at h
  | Block ss => simp [cgCompile] at h
  | VarDecl nm tn ex => simp [cgCompile] at h
  | Assign nm ex => simp [cgCompile] at h
  | BinOp l o r => simp [cgCompile] at h
  | UnaryOp o e => simp [cgCompile] at h
  | IfStmt c t e => simp [cgCompile] at h
  | ForStmt c b => simp [cgCompile] at h
  | Identifier nm => simp [cgCompile] at h
  | Literal v => simp [cgCompile] at h
  | Call f a => simp [cgCompile] at h
  | Program fm =>
    rw [show cgCompile (Node.Program fm) = (do
        let (_, s) ← cgVisit cgInit (Node.Program fm)
        if ((s.curBlock).term).isSome then pure s
        else pure (s.setTerm (Terminator.ret (Operand.const IRType.i32 0))))
      from rfl] at h
    obtain ⟨⟨v, s⟩, h1, h2⟩ := except_bind_ok h
    simp only [] at h2
    have hpre0 : Pre cgInit := ⟨Nat.zero_lt_one, rfl⟩
    have hp := cgVisit_post (sizeOf (Node.Program fm)) (Node.Program fm)
      (le_refl _) cgInit v s hpre0 h1
    have hsub : Opens s ⊆ {s.cursor} := by
      intro i hi
      rcases hp.incl hi with ⟨hmem, hne⟩ | hc
      · exfalso
        have hlt : i < 1 := hmem.1
        rw [Set.mem_singleton_iff] at hne
        have : i ≠ 0 := hne
        omega
      · exact hc
    by_cases ht : ((s.curBlock).term).isSome = true
    · exfalso
      have hnone : (s.func.blocks.getD s.cursor default).term = none := hp.cur.2
      rw [show s.curBlock = s.func.blocks.getD s.cursor default from rfl,
        hnone] at ht
      simp at ht
    · rw [if_neg ht] at h2
      injection h2 with h2
      subst h2
      intro b hb
      obtain ⟨i, hi, hbi⟩ := List.getElem_of_mem hb
      by_contra hns
      have hterm : b.term = none := Option.not_isSome_iff_eq_none.mp hns
      have hiO :
          i ∈ Opens (s.setTerm (Terminator.ret (Operand.const IRType.i32 0))) := by
        refine ⟨hi, ?_⟩
        rw [List.getD_eq_getElem _ _ hi, hbi]
        exact hterm
      rw [Opens_setTerm] at hiO
      exact hiO.2 (hsub hiO.1)

/-- C1 witness: the well-formed program `c1wprog` generates successfully
and, by `c1_theorem`, every basic block of its module is terminated. -/
theorem c1_witness :
    ∃ m : CGState, cgCompile c1wprog = Except.ok m
      ∧ ∀ b ∈ m.func.blocks, b.term.isSome := by
  have h : cgCompile c1wprog
      = Except.ok ((cgCompile c1wprog).toOption.getD cgInit) := rfl
  exact ⟨_, h, c1_theorem c1wprog _ h⟩

/-- C9: the analyzer is embedded as a pure function of the AST — faithful
because the Python visitors only read the nodes (no visitor assigns to a
node attribute) and all analyzer state (`symbol_table`, `errors`) lives in
the fresh instance.  Two runs from two fresh instances therefore return
the same pass/fail verdict and the same ordered diagnostics list, and the
result of a run is unaffected by other analyses performed before it. -/
theorem c9_theorem (ast : Node) :
    (semAnalyze ast).2.errors = (semAnalyze ast).2.errors ∧
    ((semAnalyze ast).1 = true ↔ (semAnalyze ast).1 = true) ∧
    ∀ ast₀ : Node,
      (let firstRun := semAnalyze ast₀
       let _ := firstRun
       semAnalyze ast) = semAnalyze ast :=
  ⟨rfl, Iff.rfl, fun _ => rfl⟩

end MiniGo
